import Mathlib

set_option maxRecDepth 8000

/-!
Shallow embedding of the physical-memory core of the kernel: the per-core
page allocator with cross-core stealing (kernel/kalloc.c) and the
page-fault resolution path (kernel/trap.c).  Machine integers are modelled
as Nat/Int with explicit wraparound where the C code performs unsigned
arithmetic; the intrusive free lists are modelled as lists of page
addresses; fatal conditions (panic, null dereference) are modelled by
functions returning none.  The external page-table primitives walk,
mappages and uvmunmap live in repository code outside the provided
sources and are modelled from the specification's description of them.
-/

/-- Page size in bytes (PGSIZE in riscv.h). -/
def PGSIZE : Nat := 4096

/-- Top of physical RAM (PHYSTOP in memlayout.h). -/
def PHYSTOP : Nat := 0x88000000

/-- Base of kernel physical memory (KERNBASE in memlayout.h). -/
def KERNBASE : Nat := 0x80000000

/-- Pages a starving core steals from a donor (NPGTOMOVE in kalloc.c),
a C int. -/
def NPGTOMOVE : Int := 10

/-- Round an address up to the next page boundary (PGROUNDUP in riscv.h). -/
def PGROUNDUP (a : Nat) : Nat := ((a + PGSIZE - 1) / PGSIZE) * PGSIZE

/-- Round an address down to a page boundary (PGROUNDDOWN in riscv.h). -/
def PGROUNDDOWN (a : Nat) : Nat := (a / PGSIZE) * PGSIZE

/-- The modulus of 64-bit unsigned arithmetic. -/
def U64 : Nat := 18446744073709551616

/-- The modulus of 32-bit unsigned arithmetic (the C type uint). -/
def U32 : Nat := 4294967296

/-- Index of a physical address in page_ref_count (PA2INDEX in kalloc.c).
The C macro subtracts PGROUNDUP(end) in uint64 arithmetic, so an address
below PGROUNDUP(end) wraps around modulo 2^64. -/
def PA2INDEX (kend pa : Nat) : Nat :=
  ((pa + (U64 - PGROUNDUP kend % U64)) % U64) / PGSIZE

/-- Abstract contents of one physical page: a page uniformly filled with
one byte by memset, or some other concrete contents tracked by an
identifier. -/
inductive PageData where
  | fill (b : Nat)
  | raw (n : Nat)
deriving DecidableEq

/-- Permission and status bits of a page-table entry: PTE_V, PTE_U,
PTE_R, PTE_W and the copy-on-write marker PTE_COW. -/
structure Flags where
  valid : Bool
  user : Bool
  read : Bool
  write : Bool
  cow : Bool
deriving DecidableEq

/-- One page-table entry: a physical page number plus flag bits.  PTE2PA
yields ppn * PGSIZE, so the extracted physical address is always page
aligned by construction, as in the hardware format. -/
structure PTE where
  ppn : Nat
  flags : Flags
deriving DecidableEq

/-- One per-core kmem record of kalloc.c: the free list (page addresses
in link order, head first) and its size field (a C int, hence Int). -/
structure Core where
  freelist : List Nat
  size : Int
deriving DecidableEq

/-- The state touched by kalloc.c and the page-fault path of trap.c.
kend is the linker symbol end (first address after the kernel image);
cores are the kmems array; refcnt is page_ref_count, keyed by PA2INDEX
index; mem gives each page's abstract contents; pts maps a page-table
identifier and a virtual page number to its entry (walk returning the
null pointer is none); initializing is is_initializing; mapFail
abstractly drives failure of the external mappages primitive; log counts
the diagnostic prints of is_pa_valid. -/
structure KState where
  kend : Nat
  cores : Fin 8 → Core
  refcnt : Nat → Int
  mem : Nat → PageData
  pts : Nat → Nat → Option PTE
  initializing : Bool
  mapFail : Bool
  log : Nat

/-- is_pa_valid from kalloc.c.  The C parameter has type uint, so the
64-bit argument every caller passes is truncated to its low 32 bits
before the range comparison.  Returns -1 and logs on failure, 0 on
success; never halts. -/
def is_pa_valid (s : KState) (pa : Nat) : Int × KState :=
  if pa % U32 < s.kend ∨ PHYSTOP < pa % U32 then
    (-1, { s with log := s.log + 1 })
  else (0, s)

/-- get_page_ref from kalloc.c. -/
def get_page_ref (s : KState) (pa : Nat) : Int × KState :=
  let v := is_pa_valid s pa
  if v.1 = -1 then (-1, v.2)
  else (s.refcnt (PA2INDEX s.kend pa), s)

/-- inc_page_ref from kalloc.c: atomic fetch-and-add 1 on the page's
count entry, returning the previous value. -/
def inc_page_ref (s : KState) (pa : Nat) : Int × KState :=
  let v := is_pa_valid s pa
  if v.1 = -1 then (-1, v.2)
  else
    (s.refcnt (PA2INDEX s.kend pa),
     { s with refcnt := fun j =>
        if j = PA2INDEX s.kend pa then s.refcnt (PA2INDEX s.kend pa) + 1
        else s.refcnt j })

/-- dec_page_ref from kalloc.c: atomic fetch-and-sub 1 on the page's
count entry, returning the previous value. -/
def dec_page_ref (s : KState) (pa : Nat) : Int × KState :=
  let v := is_pa_valid s pa
  if v.1 = -1 then (-1, v.2)
  else
    (s.refcnt (PA2INDEX s.kend pa),
     { s with refcnt := fun j =>
        if j = PA2INDEX s.kend pa then s.refcnt (PA2INDEX s.kend pa) - 1
        else s.refcnt j })

/-- The tail of kfree past the reference-count check: fill the page with
the junk byte 1 and push it onto core id's free list, bumping the size
field. -/
def kfreePush (s : KState) (id : Fin 8) (pa : Nat) : KState :=
  let s1 := { s with mem := fun a => if a = pa then PageData.fill 1 else s.mem a }
  { s1 with cores := fun j =>
      if j = id then ⟨pa :: (s1.cores id).freelist, (s1.cores id).size + 1⟩
      else s1.cores j }

/-- kfree from kalloc.c.  none models panic("kfree").  Outside the
boot-seeding window the reference count is decremented first and the page
is reclaimed only when the previous count was not above 1. -/
def kfree (s : KState) (id : Fin 8) (pa : Nat) : Option KState :=
  if pa % PGSIZE ≠ 0 ∨ pa < s.kend ∨ PHYSTOP ≤ pa then none
  else if s.initializing then some (kfreePush s id pa)
  else
    let d := dec_page_ref s pa
    if 1 < d.1 then some d.2 else some (kfreePush d.2 id pa)

/-- move_freelist from kalloc.c.  The C code walks
min(kmems[src].size, NPGTOMOVE) links from the source head; walking off
the end of the structural list dereferences a null pointer (modelled as
none, a machine halt); if the walk ends exactly at the null terminator
the defensive check (!prev || !current) fails with -1 and no change.  On
the success path the head and size assignments are modelled in the same
order as the C statements, which matters when dst_cpuid = src_cpuid. -/
def move_freelist (s : KState) (d sr : Fin 8) : Option (Int × KState) :=
  let l := (s.cores sr).freelist
  let k : Int := min (s.cores sr).size NPGTOMOVE
  if k ≤ 0 then some (-1, s)
  else if l.length < k.toNat then none
  else if l.length = k.toNat then some (-1, s)
  else
    let s1 := { s with cores := fun j =>
        if j = d then ⟨l.take k.toNat, (s.cores j).size⟩ else s.cores j }
    let s2 := { s1 with cores := fun j =>
        if j = sr then ⟨l.drop k.toNat, (s1.cores j).size⟩ else s1.cores j }
    let s3 := { s2 with cores := fun j =>
        if j = d then ⟨(s2.cores j).freelist, (s2.cores d).size + k⟩ else s2.cores j }
    let s4 := { s3 with cores := fun j =>
        if j = sr then ⟨(s3.cores j).freelist, (s3.cores sr).size - k⟩ else s3.cores j }
    some (0, s4)

/-- The donor scan of kalloc: try each other core in index order, skip
the caller's own id and cores with a null freelist head, stop at the
first successful steal; a failed steal leaves the state unchanged and
the scan continues. -/
def stealLoop (s : KState) (id : Fin 8) : List (Fin 8) → Option KState
  | [] => some s
  | i :: rest =>
    if i ≠ id ∧ (s.cores i).freelist ≠ [] then
      match move_freelist s id i with
      | none => none
      | some (r, s') => if r = 0 then some s' else stealLoop s' id rest
    else stealLoop s id rest

/-- kalloc from kalloc.c, running on core id (safe_cpuid).  none models
a machine halt inside a steal; some (s, none) is allocation failure; on
success the popped page is filled with the junk byte 5 and its reference
count is incremented. -/
def kalloc (s : KState) (id : Fin 8) : Option (KState × Option Nat) :=
  match (if (s.cores id).size = 0 then stealLoop s id (List.finRange 8) else some s) with
  | none => none
  | some s1 =>
    match (s1.cores id).freelist with
    | [] => some (s1, none)
    | r :: rest =>
      let s2 := { s1 with cores := fun j =>
          if j = id then ⟨rest, (s1.cores id).size - 1⟩ else s1.cores j }
      let s3 := { s2 with mem := fun a => if a = r then PageData.fill 5 else s2.mem a }
      some ((inc_page_ref s3 r).2, some r)

/-- Modelled from the spec: the external walk primitive of vm.c with
alloc = 0 (spec section 6: look up the entry for a virtual address);
none corresponds to walk returning the null pointer. -/
def walk (s : KState) (ptid va : Nat) : Option PTE := s.pts ptid (va / PGSIZE)

/-- Modelled from the spec: the external mappages primitive of vm.c
(spec section 6: install a new mapping with given permissions).  Failure
of the page-table walk inside mappages is driven abstractly by the
mapFail flag; on success the entry is installed with the given flags and
the valid bit set. -/
def mapInstall (s : KState) (ptid va pa : Nat) (fl : Flags) : KState :=
  let fl2 : Flags := { fl with valid := true }
  { s with pts := fun t v =>
      if t = ptid ∧ v = va / PGSIZE then some ⟨pa / PGSIZE, fl2⟩
      else s.pts t v }

/-- Modelled from the spec: the failure/success split of mappages; on
success the entry is installed by mapInstall. -/
def mappages (s : KState) (ptid va pa : Nat) (fl : Flags) : Int × KState :=
  if s.mapFail then (-1, s)
  else (0, mapInstall s ptid va pa fl)

/-- The memmove of the copy-on-write path at page granularity: page dst
receives the contents of page src. -/
def memCopy (s : KState) (dst src : Nat) : KState :=
  { s with mem := fun a => if a = dst then s.mem src else s.mem a }

/-- Removal of one page-table entry (the page-table mutation inside
uvmunmap). -/
def ptsClear (s : KState) (ptid va : Nat) : KState :=
  { s with pts := fun t v =>
      if t = ptid ∧ v = va / PGSIZE then none else s.pts t v }

/-- Modelled from the spec: the external uvmunmap primitive of vm.c with
npages = 1 and do_free = 1 (spec section 6: remove a mapping, implicitly
releasing the underlying page through kfree on this path).  none models
the halt a release of an invalid address causes inside kfree. -/
def uvmunmap (s : KState) (id : Fin 8) (ptid va : Nat) : Option KState :=
  match s.pts ptid (va / PGSIZE) with
  | none => none
  | some pte => kfree (ptsClear s ptid va) id (pte.ppn * PGSIZE)

/-- The allocate-and-install tail of lazyalloc_pagefault_handler: kalloc,
zero the page, install it at the page-aligned faulting address with
user/write/read permission; a mappages failure is reported with -1 and
the freshly allocated page is not released. -/
def lazyInstall (s : KState) (id : Fin 8) (ptid va : Nat) : Option (Int × KState) :=
  match kalloc s id with
  | none => none
  | some (s1, none) => some (-1, s1)
  | some (s1, some m) =>
    let s2 := { s1 with mem := fun a => if a = m then PageData.fill 0 else s1.mem a }
    let r := mappages s2 ptid (PGROUNDDOWN va) m
      { valid := false, user := true, read := true, write := true, cow := false }
    if r.1 = 0 then some (0, r.2) else some (-1, r.2)

/-- lazyalloc_pagefault_handler from trap.c. -/
def lazyalloc_pagefault_handler (s : KState) (id : Fin 8) (ptid va : Nat) :
    Option (Int × KState) :=
  match walk s ptid va with
  | some pte => if pte.flags.valid then some (0, s) else lazyInstall s id ptid va
  | none => lazyInstall s id ptid va

/-- The in-place branch of cow_pagefault_handler: rewrite the entry
through the pte pointer, clearing the copy-on-write marker and setting
write-enable, keeping the same physical page. -/
def cowUpgrade (s : KState) (ptid va : Nat) (pte : PTE) : KState :=
  let fl2 : Flags := { pte.flags with cow := false, write := true }
  { s with pts := fun t v =>
      if t = ptid ∧ v = va / PGSIZE then some ⟨pte.ppn, fl2⟩
      else s.pts t v }

/-- cow_pagefault_handler from trap.c. -/
def cow_pagefault_handler (s : KState) (id : Fin 8) (ptid va : Nat) :
    Option (Int × KState) :=
  match walk s ptid va with
  | none => some (-1, s)
  | some pte =>
    let pa := pte.ppn * PGSIZE
    if pa = 0 then some (-1, s)
    else if pte.flags.cow = false then some (0, s)
    else
      let g := get_page_ref s pa
      if 1 < g.1 then
        match kalloc g.2 id with
        | none => none
        | some (s1, none) => some (-1, s1)
        | some (s1, some m) =>
          let s2 := memCopy s1 m pa
          match uvmunmap s2 id ptid va with
          | none => none
          | some s3 =>
            let r := mappages s3 ptid (PGROUNDDOWN va) m
              { pte.flags with cow := false, write := true }
            if r.1 = 0 then some (0, r.2)
            else
              match kfree r.2 id m with
              | none => none
              | some s4 => some (-1, s4)
      else some (0, cowUpgrade g.2 ptid va pte)

/-- Which fault resolvers a trap invoked, in order. -/
inductive Ev where
  | lazy
  | cow
deriving DecidableEq

/-- The page-fault arm of usertrap in trap.c (scause 13 is a load page
fault, scause 15 a store/AMO page fault).  Modelled from the spec where
it leans on externals: the faulting address r_stval, the heap bound
p->sz and setkilled are collapsed into explicit parameters and results.
The returned Bool is the final killed mark, which exit acts on only
after the handlers have run; the returned list records which resolvers
were invoked, in order.  Other scause values are outside this model. -/
def usertrap_pf (s : KState) (id : Fin 8) (ptid : Nat) (scause va psz : Nat) :
    Option (KState × Bool × List Ev) :=
  if scause = 13 then
    match lazyalloc_pagefault_handler s id ptid va with
    | none => none
    | some (r1, s1) => some (s1, decide (psz ≤ va) || decide (r1 ≠ 0), [Ev.lazy])
  else if scause = 15 then
    match lazyalloc_pagefault_handler s id ptid va with
    | none => none
    | some (r1, s1) =>
      match cow_pagefault_handler s1 id ptid va with
      | none => none
      | some (r2, s2) =>
        some (s2, (decide (psz ≤ va) || decide (r1 ≠ 0)) || decide (r2 ≠ 0),
          [Ev.lazy, Ev.cow])
  else some (s, false, [])

/-- The pristine state at entry to kinit: zero-initialized C globals,
empty free lists, is_initializing set.  Page contents and page tables
start as fixed junk. -/
def initState0 (kend : Nat) : KState :=
  { kend := kend, cores := fun _ => ⟨[], 0⟩, refcnt := fun _ => 0,
    mem := fun _ => PageData.raw 0, pts := fun _ _ => none,
    initializing := true, mapFail := false, log := 0 }

/-- Free a list of pages in order (the loop of freerange). -/
def freeSeq (id : Fin 8) : KState → List Nat → Option KState
  | s, [] => some s
  | s, p :: ps =>
    match kfree s id p with
    | none => none
    | some s' => freeSeq id s' ps

/-- The pages freerange(end, PHYSTOP) hands to kfree, in loop order:
p = PGROUNDUP(end); p + PGSIZE <= PHYSTOP; p += PGSIZE. -/
def bootPages (kend : Nat) : List Nat :=
  (List.range ((PHYSTOP - PGROUNDUP kend) / PGSIZE)).map
    (fun i => PGROUNDUP kend + PGSIZE * i)

/-- kinit from kalloc.c, run by the boot core id0: seed every usable
page into id0's free list via kfree while is_initializing is set, then
clear page_ref_count and leave the boot-seeding window. -/
def kinit (kend : Nat) (id0 : Fin 8) : Option KState :=
  match freeSeq id0 (initState0 kend) (bootPages kend) with
  | none => none
  | some s => some { s with refcnt := fun _ => 0, initializing := false }

/-- A page currently handed out by the allocator: page aligned, inside
the usable range, with a positive reference count, sitting on no free
list.  This is the ownership discipline under which the rest of the
kernel calls kfree (spec section 5: a page is either on exactly one free
list or allocated with a positive count). -/
def Allocated (s : KState) (pa : Nat) : Prop :=
  pa % PGSIZE = 0 ∧ s.kend ≤ pa ∧ pa < PHYSTOP ∧
    1 ≤ s.refcnt (PA2INDEX s.kend pa) ∧ ∀ c : Fin 8, pa ∉ (s.cores c).freelist

/-- Allocator states reachable after boot: the post-kinit state, closed
under kalloc on any core, kfree of an allocated page on any core, and
environment steps that may rewrite page contents, page tables, the
mapFail oracle and the log but leave the allocator's own data (kend,
free lists, reference counts, boot flag) alone. -/
inductive Reachable : KState → Prop where
  | boot (kend : Nat) (id0 : Fin 8) (s : KState)
      (h : kinit kend id0 = some s) : Reachable s
  | alloc (s s' : KState) (id : Fin 8) (r : Option Nat) (h : Reachable s)
      (hs : kalloc s id = some (s', r)) : Reachable s'
  | free (s s' : KState) (id : Fin 8) (pa : Nat) (h : Reachable s)
      (ha : Allocated s pa) (hs : kfree s id pa = some s') : Reachable s'
  | env (s s' : KState) (h : Reachable s) (hk : s'.kend = s.kend)
      (hc : s'.cores = s.cores) (hr : s'.refcnt = s.refcnt)
      (hi : s'.initializing = s.initializing) : Reachable s'

/-- Structural well-formedness of the per-core free lists: every size
field equals its list's length, every listed page is aligned and inside
the usable range, no list repeats a page, and no page sits on two
lists. -/
def InvCores (s : KState) : Prop :=
  (∀ c : Fin 8, (s.cores c).size = ((s.cores c).freelist.length : Int)) ∧
  (∀ c : Fin 8, ∀ pa ∈ (s.cores c).freelist,
      pa % PGSIZE = 0 ∧ s.kend ≤ pa ∧ pa < PHYSTOP) ∧
  (∀ c : Fin 8, (s.cores c).freelist.Nodup) ∧
  (∀ c c' : Fin 8, c ≠ c' → ∀ pa ∈ (s.cores c).freelist, pa ∉ (s.cores c').freelist)

/-- The allocator invariant of reachable post-boot states: the boot
window is over, the free lists are structurally well formed, and every
free page's reference count is zero. -/
def KInv (s : KState) : Prop :=
  s.initializing = false ∧ InvCores s ∧
  ∀ c : Fin 8, ∀ pa ∈ (s.cores c).freelist, s.refcnt (PA2INDEX s.kend pa) = 0

/-- Result part of move_freelist, for stating theorems about outcomes. -/
def mfRes (s : KState) (d sr : Fin 8) : Option Int :=
  (move_freelist s d sr).map (fun p => p.1)

/-- State part of move_freelist (the input state if it halted). -/
def mfSt (s : KState) (d sr : Fin 8) : KState :=
  match move_freelist s d sr with
  | some (_, t) => t
  | none => s

/-- Result part of kalloc: the allocated page, if any. -/
def kallocRes (s : KState) (id : Fin 8) : Option Nat :=
  match kalloc s id with
  | some (_, r) => r
  | none => none

/-- Whether kalloc terminated (did not halt in a steal). -/
def kallocOk (s : KState) (id : Fin 8) : Bool :=
  (kalloc s id).isSome

/-- State part of kalloc (the input state if it halted). -/
def kallocSt (s : KState) (id : Fin 8) : KState :=
  match kalloc s id with
  | some (t, _) => t
  | none => s

/-- Result part of lazyalloc_pagefault_handler. -/
def lazyRes (s : KState) (id : Fin 8) (ptid va : Nat) : Option Int :=
  (lazyalloc_pagefault_handler s id ptid va).map (fun p => p.1)

/-- State part of lazyalloc_pagefault_handler (input state on a halt). -/
def lazySt (s : KState) (id : Fin 8) (ptid va : Nat) : KState :=
  match lazyalloc_pagefault_handler s id ptid va with
  | some (_, t) => t
  | none => s

/-- Result part of cow_pagefault_handler. -/
def cowRes (s : KState) (id : Fin 8) (ptid va : Nat) : Option Int :=
  (cow_pagefault_handler s id ptid va).map (fun p => p.1)

/-- State part of cow_pagefault_handler (input state on a halt). -/
def cowSt (s : KState) (id : Fin 8) (ptid va : Nat) : KState :=
  match cow_pagefault_handler s id ptid va with
  | some (_, t) => t
  | none => s

/-- Two explicitly given cores (0 and 1), the rest empty. -/
def coresOf (l0 l1 : Core) : Fin 8 → Core :=
  fun c => if c = 0 then l0 else if c = 1 then l1 else ⟨[], 0⟩

/-- A quiescent post-boot state used to build concrete test states. -/
def baseS : KState :=
  { kend := 0x80100000, cores := fun _ => ⟨[], 0⟩, refcnt := fun _ => 0,
    mem := fun _ => PageData.raw 0, pts := fun _ _ => none,
    initializing := false, mapFail := false, log := 0 }

/-- State whose page counts are all 1 (for exercising kfree at the
lower range boundary). -/
def sC1x : KState := { baseS with refcnt := fun _ => 1 }

/-- Donor core 1 holds three pages, counted correctly; core 0 is empty. -/
def sC3 : KState := { baseS with cores := coresOf ⟨[], 0⟩ ⟨[1, 2, 3], 3⟩ }

/-- Destination core 0 holds one page; donor core 1 holds eleven. -/
def sC4x : KState :=
  { baseS with cores := coresOf ⟨[100], 1⟩ ⟨[1, 2, 3, 4, 5, 6, 7, 8, 9, 10, 11], 11⟩ }

/-- Destination core 0 empty; donor core 1 holds eleven pages. -/
def sC4w : KState :=
  { baseS with cores := coresOf ⟨[], 0⟩ ⟨[1, 2, 3, 4, 5, 6, 7, 8, 9, 10, 11], 11⟩ }

/-- Core 0 holds eleven correctly counted pages (self-steal scenario). -/
def sC5 : KState :=
  { baseS with cores := coresOf ⟨[1, 2, 3, 4, 5, 6, 7, 8, 9, 10, 11], 11⟩ ⟨[], 0⟩ }

/-- State whose page counts are all 7 (for exercising the truncated
validity check of the reference-count operations). -/
def sC9 : KState := { baseS with refcnt := fun _ => 7 }


/-- State whose page counts are all 2 (shared pages). -/
def sRef2 : KState := { baseS with refcnt := fun _ => 2 }

/-- A state still inside the boot-seeding window. -/
def sInit : KState := { baseS with initializing := true }

/-- Flags of a copy-on-write mapping: valid, user, readable, not
writable, marker set. -/
def flCow : Flags :=
  { valid := true, user := true, read := true, write := false, cow := true }

/-- Flags of an ordinary private mapping: valid, user, readable,
writable, marker clear. -/
def flPlain : Flags :=
  { valid := true, user := true, read := true, write := true, cow := false }

/-- A page table (id 0) mapping virtual page 0 to a valid non-cow page. -/
def sPteV : KState :=
  { baseS with pts := fun t v => if t = 0 ∧ v = 0 then some ⟨0x80200, flPlain⟩ else none }

/-- A page table whose entry for virtual page 0 has physical address 0. -/
def sPte0 : KState :=
  { baseS with pts := fun t v => if t = 0 ∧ v = 0 then some ⟨0, flCow⟩ else none }

/-- Copy-on-write fault scenario: table 0 maps virtual page 0 to the
shared page 0x80200000 (count 2, table index 256), and core 0 holds one
free page 0x80300000 for the private copy.  Page contents are kept
distinguishable. -/
def sCowCopy : KState :=
  { baseS with
    pts := fun t v => if t = 0 ∧ v = 0 then some ⟨0x80200, flCow⟩ else none,
    refcnt := fun j => if j = 256 then 2 else 0,
    cores := coresOf ⟨[0x80300000], 1⟩ ⟨[], 0⟩,
    mem := fun a => PageData.raw a }

/-- Same scenario, but this process is already the sole owner (count 1). -/
def sCowOne : KState :=
  { baseS with
    pts := fun t v => if t = 0 ∧ v = 0 then some ⟨0x80200, flCow⟩ else none,
    refcnt := fun j => if j = 256 then 1 else 0,
    mem := fun a => PageData.raw a }

/-- Copy-on-write scenario in which the external mappages primitive will
fail. -/
def sCowFail : KState := { sCowCopy with mapFail := true }

/-- Lazy-allocation scenario: nothing mapped, one free page on core 0. -/
def sLazy : KState :=
  { baseS with cores := coresOf ⟨[0x80300000], 1⟩ ⟨[], 0⟩ }

/-- Lazy-allocation scenario in which the external mappages primitive
will fail. -/
def sLazyLeak : KState := { sLazy with mapFail := true }

/-- The post-kinit state for a toy three-page machine whose kernel image
ends at 0x87FFD000 (pages 0x87FFD000, 0x87FFE000, 0x87FFF000). -/
def sBoot : KState := (kinit 0x87FFD000 0).getD (initState0 0x87FFD000)

/-- C1, counterexample: the claim's range condition is strict at both
ends, but kfree's lower bound is inclusive.  The page-aligned address
0x80100000 equals the kernel-image end of this state, so it does not lie
strictly between the kernel-image end and top-of-RAM; the claim then
demands a halt, yet kfree accepts it (the code accepts any aligned pa
with end <= pa < PHYSTOP, and boot seeding itself frees PGROUNDUP(end)).
-/
theorem kfree_end_boundary_cex :
    (0x80100000 : Nat) % PGSIZE = 0 ∧ ¬ sC1x.kend < 0x80100000 ∧
      (kfree sC1x 0 0x80100000).isSome = true := by decide

/-- C3, code-bug evaluation: a donor (core 1) holding three pages with
an accurate count should donate min(count, NPGTOMOVE) = 3 pages to the
empty core 0, but move_freelist walks exactly to the null terminator,
trips the defensive (!prev || !current) check and fails as a no-op. -/
theorem move_freelist_small_donor_fails :
    move_freelist sC3 0 1 = some (-1, sC3) ∧
      min (sC3.cores 1).size NPGTOMOVE = 3 ∧ 1 ≤ (sC3.cores 1).size :=
  ⟨rfl, by decide, by decide⟩

/-- C4, counterexample: a successful steal into a destination whose list
is not empty overwrites the destination's head pointer.  Both lists are
well formed with accurate counts, the steal succeeds, and page 100 —
which sat on the destination's list beforehand — is on neither list
afterwards, refuting that every page beforehand ends up on exactly one
of the two lists. -/
theorem move_freelist_dest_loss_cex :
    mfRes sC4x 0 1 = some 0 ∧ 100 ∈ (sC4x.cores 0).freelist ∧
      100 ∉ ((mfSt sC4x 0 1).cores 0).freelist ∧
      100 ∉ ((mfSt sC4x 0 1).cores 1).freelist := by decide

/-- C5, counterexample: move_freelist does not reject destination =
source.  On a well-formed eleven-page list the self-call returns success
(0), not failure, and changes the list — so self-steal is not rejected
outright as a no-op by the steal operation itself. -/
theorem move_freelist_self_steal_cex :
    mfRes sC5 0 0 = some 0 ∧
      ((mfSt sC5 0 0).cores 0).freelist ≠ (sC5.cores 0).freelist := by decide

/-- C9, counterexample: is_pa_valid takes a 32-bit uint, so the 64-bit
address 0x180200000 — which lies beyond top-of-RAM, hence outside the
managed range — is truncated to 0x80200000, passes the validity check,
and get_page_ref returns a count read from the table (7 here) with no
sentinel and no log, refuting "sentinel exactly when outside the managed
range". -/
theorem refcount_truncation_cex :
    PHYSTOP < 0x180200000 ∧ (get_page_ref sC9 0x180200000).1 = 7 ∧
      (get_page_ref sC9 0x180200000).2.log = 0 := by decide

theorem sBoot_eq : kinit 0x87FFD000 0 = some sBoot := rfl


theorem PGROUNDUP_le_self (a : Nat) : a ≤ PGROUNDUP a := by
  simp only [PGROUNDUP, PGSIZE]; omega

theorem le_PGROUNDUP_of_aligned (kend pa : Nat) (h0 : pa % PGSIZE = 0)
    (h1 : kend ≤ pa) : PGROUNDUP kend ≤ pa := by
  simp only [PGROUNDUP, PGSIZE] at *; omega

theorem PHYSTOP_lt_U32 : PHYSTOP < U32 := by norm_num [PHYSTOP, U32]

theorem PA2INDEX_eval (kend pa : Nat) (h1 : PGROUNDUP kend ≤ pa) (h2 : pa < U64) :
    PA2INDEX kend pa = (pa - PGROUNDUP kend) / PGSIZE := by
  simp only [PA2INDEX, U64, PGSIZE] at *; omega

theorem PA2INDEX_inj (kend p q : Nat)
    (hp0 : p % PGSIZE = 0) (hp1 : kend ≤ p) (hp2 : p < PHYSTOP)
    (hq0 : q % PGSIZE = 0) (hq1 : kend ≤ q) (hq2 : q < PHYSTOP)
    (h : PA2INDEX kend p = PA2INDEX kend q) : p = q := by
  have hp : PGROUNDUP kend ≤ p := le_PGROUNDUP_of_aligned kend p hp0 hp1
  have hq : PGROUNDUP kend ≤ q := le_PGROUNDUP_of_aligned kend q hq0 hq1
  have hU : PHYSTOP < U64 := by norm_num [PHYSTOP, U64]
  rw [PA2INDEX_eval kend p hp (by omega), PA2INDEX_eval kend q hq (by omega)] at h
  simp only [PGROUNDUP, PGSIZE] at *
  omega

theorem valid_range_not (s : KState) (pa : Nat) (h1 : s.kend ≤ pa)
    (h2 : pa < PHYSTOP) : ¬(pa % U32 < s.kend ∨ PHYSTOP < pa % U32) := by
  have hm : pa % U32 = pa := Nat.mod_eq_of_lt (lt_trans h2 PHYSTOP_lt_U32)
  rw [hm]; omega

theorem is_pa_valid_ok (s : KState) (pa : Nat) (h1 : s.kend ≤ pa)
    (h2 : pa < PHYSTOP) : is_pa_valid s pa = (0, s) := by
  unfold is_pa_valid; rw [if_neg (valid_range_not s pa h1 h2)]

theorem is_pa_valid_bad (s : KState) (pa : Nat)
    (h : pa % U32 < s.kend ∨ PHYSTOP < pa % U32) :
    is_pa_valid s pa = (-1, { s with log := s.log + 1 }) := by
  unfold is_pa_valid; rw [if_pos h]

theorem get_page_ref_ok (s : KState) (pa : Nat) (h1 : s.kend ≤ pa)
    (h2 : pa < PHYSTOP) :
    get_page_ref s pa = (s.refcnt (PA2INDEX s.kend pa), s) := by
  simp only [get_page_ref, is_pa_valid_ok s pa h1 h2]
  rw [if_neg (by decide)]

theorem dec_page_ref_ok (s : KState) (pa : Nat) (h1 : s.kend ≤ pa)
    (h2 : pa < PHYSTOP) :
    dec_page_ref s pa = (s.refcnt (PA2INDEX s.kend pa),
      { s with refcnt := fun j =>
        if j = PA2INDEX s.kend pa then s.refcnt (PA2INDEX s.kend pa) - 1
        else s.refcnt j }) := by
  simp only [dec_page_ref, is_pa_valid_ok s pa h1 h2]
  rw [if_neg (by decide)]

theorem inc_page_ref_ok (s : KState) (pa : Nat) (h1 : s.kend ≤ pa)
    (h2 : pa < PHYSTOP) :
    inc_page_ref s pa = (s.refcnt (PA2INDEX s.kend pa),
      { s with refcnt := fun j =>
        if j = PA2INDEX s.kend pa then s.refcnt (PA2INDEX s.kend pa) + 1
        else s.refcnt j }) := by
  simp only [inc_page_ref, is_pa_valid_ok s pa h1 h2]
  rw [if_neg (by decide)]

theorem kfree_checks_pass (s : KState) (pa : Nat) (h0 : pa % PGSIZE = 0)
    (h1 : s.kend ≤ pa) (h2 : pa < PHYSTOP) :
    ¬(pa % PGSIZE ≠ 0 ∨ pa < s.kend ∨ PHYSTOP ≤ pa) := by
  simp only [not_or, not_lt, not_le, ne_eq, not_not]
  exact ⟨h0, h1, h2⟩

theorem kfree_shared_eq (s : KState) (id : Fin 8) (pa : Nat)
    (h0 : pa % PGSIZE = 0) (h1 : s.kend ≤ pa) (h2 : pa < PHYSTOP)
    (hi : s.initializing = false) (hc : 1 < s.refcnt (PA2INDEX s.kend pa)) :
    kfree s id pa = some
      { s with refcnt := fun j =>
          if j = PA2INDEX s.kend pa then s.refcnt (PA2INDEX s.kend pa) - 1
          else s.refcnt j } := by
  have hd := dec_page_ref_ok s pa h1 h2
  have hni : ¬ (s.initializing = true) := by rw [hi]; simp
  have hgt : 1 < (dec_page_ref s pa).1 := by rw [hd]; exact hc
  unfold kfree
  rw [if_neg (kfree_checks_pass s pa h0 h1 h2), if_neg hni, if_pos hgt, hd]

theorem kfree_owner_eq (s : KState) (id : Fin 8) (pa : Nat)
    (h0 : pa % PGSIZE = 0) (h1 : s.kend ≤ pa) (h2 : pa < PHYSTOP)
    (hi : s.initializing = false) (hc : ¬ 1 < s.refcnt (PA2INDEX s.kend pa)) :
    kfree s id pa = some (kfreePush
      { s with refcnt := fun j =>
          if j = PA2INDEX s.kend pa then s.refcnt (PA2INDEX s.kend pa) - 1
          else s.refcnt j } id pa) := by
  have hd := dec_page_ref_ok s pa h1 h2
  have hni : ¬ (s.initializing = true) := by rw [hi]; simp
  have hgt : ¬ 1 < (dec_page_ref s pa).1 := by rw [hd]; exact hc
  unfold kfree
  rw [if_neg (kfree_checks_pass s pa h0 h1 h2), if_neg hni, if_neg hgt, hd]

/-- C1 (amended): release behaviour of kfree.  The kernel halts exactly
when the address is misaligned or outside the half-open usable range
[end, PHYSTOP) — the lower bound is inclusive, not strict as the claim
stated.  Past the boot-seeding window the page's count entry is
decremented; if the previous count exceeded 1 the call returns with only
that decrement (no free list is touched); if the previous count was 1
the page is filled with the sentinel and pushed onto the calling core's
list with its size incremented (kfreePush); during boot-seeding the page
is pushed without touching counts. -/
theorem kfree_release_spec (s₁ s₂ s₃ s₄ : KState) (i₁ i₂ i₃ i₄ : Fin 8)
    (p₁ p₂ p₃ p₄ : Nat) :
    (kfree s₁ i₁ p₁ = none ↔ ¬(p₁ % PGSIZE = 0 ∧ s₁.kend ≤ p₁ ∧ p₁ < PHYSTOP)) ∧
    (p₂ % PGSIZE = 0 → s₂.kend ≤ p₂ → p₂ < PHYSTOP → s₂.initializing = false →
      1 < s₂.refcnt (PA2INDEX s₂.kend p₂) →
      kfree s₂ i₂ p₂ = some
        { s₂ with refcnt := fun j =>
            if j = PA2INDEX s₂.kend p₂ then s₂.refcnt (PA2INDEX s₂.kend p₂) - 1
            else s₂.refcnt j }) ∧
    (p₃ % PGSIZE = 0 → s₃.kend ≤ p₃ → p₃ < PHYSTOP → s₃.initializing = false →
      s₃.refcnt (PA2INDEX s₃.kend p₃) = 1 →
      kfree s₃ i₃ p₃ = some (kfreePush
        { s₃ with refcnt := fun j =>
            if j = PA2INDEX s₃.kend p₃ then s₃.refcnt (PA2INDEX s₃.kend p₃) - 1
            else s₃.refcnt j } i₃ p₃)) ∧
    (p₄ % PGSIZE = 0 → s₄.kend ≤ p₄ → p₄ < PHYSTOP → s₄.initializing = true →
      kfree s₄ i₄ p₄ = some (kfreePush s₄ i₄ p₄)) := by
  refine ⟨?_, ?_, ?_, ?_⟩
  · constructor
    · intro hn
      intro hcond
      obtain ⟨h0, h1, h2⟩ := hcond
      unfold kfree at hn
      rw [if_neg (kfree_checks_pass s₁ p₁ h0 h1 h2)] at hn
      by_cases hi : s₁.initializing
      · rw [if_pos hi] at hn; exact Option.noConfusion hn
      · rw [if_neg hi] at hn
        by_cases hc : 1 < (dec_page_ref s₁ p₁).1
        · rw [if_pos hc] at hn; exact Option.noConfusion hn
        · rw [if_neg hc] at hn; exact Option.noConfusion hn
    · intro hcond
      unfold kfree
      rw [if_pos (by
        by_contra hc
        simp only [not_or, not_lt, not_le, ne_eq, not_not] at hc
        exact hcond ⟨hc.1, hc.2.1, hc.2.2⟩)]
  · intro h0 h1 h2 hi hc
    exact kfree_shared_eq s₂ i₂ p₂ h0 h1 h2 hi hc
  · intro h0 h1 h2 hi hc
    exact kfree_owner_eq s₃ i₃ p₃ h0 h1 h2 hi (by rw [hc]; decide)
  · intro h0 h1 h2 hi
    have hpi : s₄.initializing = true := hi
    unfold kfree
    rw [if_neg (kfree_checks_pass s₄ p₄ h0 h1 h2), if_pos hpi]

/-- Witness for kfree_release_spec: a misaligned address halts; a shared
page (count 2) is only decremented; a sole-owner page (count 1) is
decremented and pushed; a boot-seeding free is pushed without counts. -/
theorem kfree_release_spec_witness :
    kfree baseS 0 5 = none ∧
    kfree sRef2 0 0x80200000 = some
      { sRef2 with refcnt := fun j =>
          if j = PA2INDEX sRef2.kend 0x80200000
          then sRef2.refcnt (PA2INDEX sRef2.kend 0x80200000) - 1
          else sRef2.refcnt j } ∧
    kfree sC1x 0 0x80200000 = some (kfreePush
      { sC1x with refcnt := fun j =>
          if j = PA2INDEX sC1x.kend 0x80200000
          then sC1x.refcnt (PA2INDEX sC1x.kend 0x80200000) - 1
          else sC1x.refcnt j } 0 0x80200000) ∧
    kfree sInit 0 0x80200000 = some (kfreePush sInit 0 0x80200000) :=
  have h := kfree_release_spec baseS sRef2 sC1x sInit 0 0 0 0 5
    0x80200000 0x80200000 0x80200000
  ⟨h.1.mpr (by decide),
   h.2.1 (by decide) (by decide) (by decide) rfl (by decide),
   h.2.2.1 (by decide) (by decide) (by decide) rfl (by decide),
   h.2.2.2 (by decide) (by decide) (by decide) rfl⟩

theorem is_pa_valid_pass (s : KState) (pa : Nat)
    (h : ¬(pa % U32 < s.kend ∨ PHYSTOP < pa % U32)) : is_pa_valid s pa = (0, s) := by
  unfold is_pa_valid; rw [if_neg h]

/-- C9 (amended): get_page_ref, inc_page_ref and dec_page_ref never halt
and return the -1 sentinel after logging exactly when the validity check
fails; but the check compares the address truncated to its low 32 bits
(the uint parameter of is_pa_valid) against [end, PHYSTOP], so an
address at or above 2^32 whose low bits land in range is treated as
valid even though it lies outside the managed range.  On an address that
passes the check, inc_page_ref and dec_page_ref atomically add or
subtract 1 at the page's PA2INDEX entry and return the previous count,
and get_page_ref returns the entry without logging. -/
theorem refcount_ops_spec (s₁ s₂ s₃ s₄ s₅ s₆ : KState) (p₁ p₂ p₃ p₄ p₅ p₆ : Nat) :
    (p₁ % U32 < s₁.kend ∨ PHYSTOP < p₁ % U32 →
      get_page_ref s₁ p₁ = (-1, { s₁ with log := s₁.log + 1 })) ∧
    (¬(p₂ % U32 < s₂.kend ∨ PHYSTOP < p₂ % U32) →
      get_page_ref s₂ p₂ = (s₂.refcnt (PA2INDEX s₂.kend p₂), s₂)) ∧
    (p₃ % U32 < s₃.kend ∨ PHYSTOP < p₃ % U32 →
      inc_page_ref s₃ p₃ = (-1, { s₃ with log := s₃.log + 1 })) ∧
    (¬(p₄ % U32 < s₄.kend ∨ PHYSTOP < p₄ % U32) →
      inc_page_ref s₄ p₄ = (s₄.refcnt (PA2INDEX s₄.kend p₄),
        { s₄ with refcnt := fun j =>
            if j = PA2INDEX s₄.kend p₄ then s₄.refcnt (PA2INDEX s₄.kend p₄) + 1
            else s₄.refcnt j })) ∧
    (p₅ % U32 < s₅.kend ∨ PHYSTOP < p₅ % U32 →
      dec_page_ref s₅ p₅ = (-1, { s₅ with log := s₅.log + 1 })) ∧
    (¬(p₆ % U32 < s₆.kend ∨ PHYSTOP < p₆ % U32) →
      dec_page_ref s₆ p₆ = (s₆.refcnt (PA2INDEX s₆.kend p₆),
        { s₆ with refcnt := fun j =>
            if j = PA2INDEX s₆.kend p₆ then s₆.refcnt (PA2INDEX s₆.kend p₆) - 1
            else s₆.refcnt j })) := by
  refine ⟨?_, ?_, ?_, ?_, ?_, ?_⟩
  · intro h
    simp only [get_page_ref, is_pa_valid_bad s₁ p₁ h]
    rw [if_pos trivial]
  · intro h
    simp only [get_page_ref, is_pa_valid_pass s₂ p₂ h]
    rw [if_neg (by decide)]
  · intro h
    simp only [inc_page_ref, is_pa_valid_bad s₃ p₃ h]
    rw [if_pos trivial]
  · intro h
    simp only [inc_page_ref, is_pa_valid_pass s₄ p₄ h]
    rw [if_neg (by decide)]
  · intro h
    simp only [dec_page_ref, is_pa_valid_bad s₅ p₅ h]
    rw [if_pos trivial]
  · intro h
    simp only [dec_page_ref, is_pa_valid_pass s₆ p₆ h]
    rw [if_neg (by decide)]

/-- Witness for refcount_ops_spec: address 0x100 is rejected (sentinel
and log) by all three operations, address 0x80200000 is accepted with
the documented read/add/subtract behaviour. -/
theorem refcount_ops_spec_witness :
    get_page_ref baseS 0x100 = (-1, { baseS with log := baseS.log + 1 }) ∧
    get_page_ref sC9 0x80200000 = (sC9.refcnt (PA2INDEX sC9.kend 0x80200000), sC9) ∧
    inc_page_ref baseS 0x100 = (-1, { baseS with log := baseS.log + 1 }) ∧
    inc_page_ref sC9 0x80200000 = (sC9.refcnt (PA2INDEX sC9.kend 0x80200000),
      { sC9 with refcnt := fun j =>
          if j = PA2INDEX sC9.kend 0x80200000
          then sC9.refcnt (PA2INDEX sC9.kend 0x80200000) + 1
          else sC9.refcnt j }) ∧
    dec_page_ref baseS 0x100 = (-1, { baseS with log := baseS.log + 1 }) ∧
    dec_page_ref sC9 0x80200000 = (sC9.refcnt (PA2INDEX sC9.kend 0x80200000),
      { sC9 with refcnt := fun j =>
          if j = PA2INDEX sC9.kend 0x80200000
          then sC9.refcnt (PA2INDEX sC9.kend 0x80200000) - 1
          else sC9.refcnt j }) :=
  have h := refcount_ops_spec baseS sC9 baseS sC9 baseS sC9
    0x100 0x80200000 0x100 0x80200000 0x100 0x80200000
  ⟨h.1 (by decide), h.2.1 (by decide), h.2.2.1 (by decide),
   h.2.2.2.1 (by decide), h.2.2.2.2.1 (by decide), h.2.2.2.2.2 (by decide)⟩

/-- C4 (amended): a successful steal between distinct cores conserves
the two lists' page population provided the destination's list is empty
beforehand — which is how kalloc always calls it, since it steals only
when its own count is zero.  (Without that proviso the destination's
previous pages are lost, because move_freelist overwrites the
destination head; see the counterexample.)  The two size fields are
conserved unconditionally, every page of the donor ends up on exactly
one of the two lists, and no address is on both. -/
theorem move_freelist_conservation (s : KState) (d sr : Fin 8) (s' : KState)
    (hne : d ≠ sr)
    (hdE : (s.cores d).freelist = [])
    (hsz : (s.cores sr).size = ((s.cores sr).freelist.length : Int))
    (hnd : (s.cores sr).freelist.Nodup)
    (h : move_freelist s d sr = some (0, s')) :
    ((s'.cores d).size + (s'.cores sr).size =
      (s.cores d).size + (s.cores sr).size) ∧
    (∀ pa : Nat, (pa ∈ (s.cores d).freelist ∨ pa ∈ (s.cores sr).freelist) ↔
      (pa ∈ (s'.cores d).freelist ∨ pa ∈ (s'.cores sr).freelist)) ∧
    (∀ pa : Nat, ¬(pa ∈ (s'.cores d).freelist ∧ pa ∈ (s'.cores sr).freelist)) := by
  have hne' : sr ≠ d := Ne.symm hne
  unfold move_freelist at h
  dsimp only at h
  split at h
  · simp only [Option.some.injEq, Prod.mk.injEq] at h
    exact absurd h.1 (by decide)
  · split at h
    · exact Option.noConfusion h
    · split at h
      · simp only [Option.some.injEq, Prod.mk.injEq] at h
        exact absurd h.1 (by decide)
      · simp only [Option.some.injEq, Prod.mk.injEq] at h
        obtain ⟨-, h4⟩ := h
        subst h4
        have hdj : List.Disjoint
            ((s.cores sr).freelist.take (min (s.cores sr).size NPGTOMOVE).toNat)
            ((s.cores sr).freelist.drop (min (s.cores sr).size NPGTOMOVE).toNat) :=
          List.disjoint_of_nodup_append (by rw [List.take_append_drop]; exact hnd)
        refine ⟨?_, ?_, ?_⟩
        · simp only [if_neg hne, if_neg hne', if_pos rfl, if_true, eq_self_iff_true]
          omega
        · intro pa
          simp only [if_neg hne, if_neg hne', if_pos rfl, if_true, eq_self_iff_true]
          rw [hdE]
          simp only [List.not_mem_nil, false_or]
          rw [← List.mem_append, List.take_append_drop]
        · intro pa
          simp only [if_neg hne, if_neg hne', if_pos rfl, if_true, eq_self_iff_true]
          exact fun hc => hdj hc.1 hc.2

/-- Witness for move_freelist_conservation: the empty core 0 steals from
the eleven-page core 1; sizes are conserved and page 5 ends up on
exactly one of the two lists. -/
theorem move_freelist_conservation_witness :
    ((mfSt sC4w 0 1).cores 0).size + ((mfSt sC4w 0 1).cores 1).size =
      (sC4w.cores 0).size + (sC4w.cores 1).size ∧
    ((5 ∈ (sC4w.cores 0).freelist ∨ 5 ∈ (sC4w.cores 1).freelist) ↔
      (5 ∈ ((mfSt sC4w 0 1).cores 0).freelist ∨
        5 ∈ ((mfSt sC4w 0 1).cores 1).freelist)) ∧
    ¬(5 ∈ ((mfSt sC4w 0 1).cores 0).freelist ∧
        5 ∈ ((mfSt sC4w 0 1).cores 1).freelist) :=
  have h := move_freelist_conservation sC4w 0 1 (mfSt sC4w 0 1) (by decide)
    (by decide) (by decide) (by decide) rfl
  ⟨h.1, h.2.1 5, h.2.2 5⟩

/-- C5 (amended): move_freelist does not reject destination = source.
A self-call on a well-formed list of at least NPGTOMOVE + 1 pages
returns success (0), drops the first NPGTOMOVE pages from the list
without attaching them anywhere, and leaves the size field unchanged;
self-steal is avoided only by the caller's scan in kalloc, which skips
the calling core's own index. -/
theorem move_freelist_self_steal_spec (s : KState) (c : Fin 8)
    (hsz : (s.cores c).size = ((s.cores c).freelist.length : Int))
    (hL : 11 ≤ (s.cores c).freelist.length) :
    mfRes s c c = some 0 ∧
    ((mfSt s c c).cores c).freelist = (s.cores c).freelist.drop 10 ∧
    ((mfSt s c c).cores c).size = (s.cores c).size := by
  have hk : min (s.cores c).size NPGTOMOVE = (10 : Int) := by
    rw [hsz]; simp only [NPGTOMOVE]; omega
  unfold mfRes mfSt move_freelist
  rw [hk]
  rw [if_neg (by decide)]
  rw [if_neg (by omega)]
  rw [if_neg (by omega)]
  refine ⟨rfl, ?_, ?_⟩
  · dsimp only
    simp only [eq_self_iff_true, if_true, if_pos]
    rfl
  · dsimp only
    simp only [eq_self_iff_true, if_true, if_pos]
    omega

/-- Witness for move_freelist_self_steal_spec: on the eleven-page core 0
the self-call succeeds, drops ten pages and keeps the count at 11. -/
theorem move_freelist_self_steal_spec_witness :
    mfRes sC5 0 0 = some 0 ∧
    ((mfSt sC5 0 0).cores 0).freelist = (sC5.cores 0).freelist.drop 10 ∧
    ((mfSt sC5 0 0).cores 0).size = (sC5.cores 0).size :=
  move_freelist_self_steal_spec sC5 0 (by decide) (by decide)

theorem move_freelist_frame (s : KState) (d sr : Fin 8) (r : Int) (t : KState)
    (h : move_freelist s d sr = some (r, t)) :
    t.kend = s.kend ∧ t.refcnt = s.refcnt ∧ t.mem = s.mem ∧ t.pts = s.pts ∧
    t.initializing = s.initializing ∧ t.mapFail = s.mapFail ∧ t.log = s.log := by
  unfold move_freelist at h
  dsimp only at h
  split at h
  · simp only [Option.some.injEq, Prod.mk.injEq] at h
    obtain ⟨-, h2⟩ := h
    subst h2
    exact ⟨rfl, rfl, rfl, rfl, rfl, rfl, rfl⟩
  · split at h
    · exact Option.noConfusion h
    · split at h
      · simp only [Option.some.injEq, Prod.mk.injEq] at h
        obtain ⟨-, h2⟩ := h
        subst h2
        exact ⟨rfl, rfl, rfl, rfl, rfl, rfl, rfl⟩
      · simp only [Option.some.injEq, Prod.mk.injEq] at h
        obtain ⟨-, h2⟩ := h
        subst h2
        exact ⟨rfl, rfl, rfl, rfl, rfl, rfl, rfl⟩

theorem stealLoop_frame (id : Fin 8) : ∀ (l : List (Fin 8)) (s t : KState),
    stealLoop s id l = some t →
    t.kend = s.kend ∧ t.refcnt = s.refcnt ∧ t.mem = s.mem ∧ t.pts = s.pts ∧
    t.initializing = s.initializing ∧ t.mapFail = s.mapFail ∧ t.log = s.log := by
  intro l
  induction l with
  | nil =>
    intro s t h
    unfold stealLoop at h
    simp only [Option.some.injEq] at h
    subst h
    exact ⟨rfl, rfl, rfl, rfl, rfl, rfl, rfl⟩
  | cons i rest ih =>
    intro s t h
    unfold stealLoop at h
    split at h
    · rcases hmv : move_freelist s id i with _ | ⟨r, s'⟩
      · rw [hmv] at h
        exact Option.noConfusion h
      · rw [hmv] at h
        dsimp only at h
        have hfr := move_freelist_frame s id i r s' hmv
        by_cases hr : r = 0
        · rw [if_pos hr] at h
          simp only [Option.some.injEq] at h
          subst h
          exact hfr
        · rw [if_neg hr] at h
          have h1 := ih s' t h
          exact ⟨h1.1.trans hfr.1, h1.2.1.trans hfr.2.1, h1.2.2.1.trans hfr.2.2.1,
            h1.2.2.2.1.trans hfr.2.2.2.1, h1.2.2.2.2.1.trans hfr.2.2.2.2.1,
            h1.2.2.2.2.2.1.trans hfr.2.2.2.2.2.1, h1.2.2.2.2.2.2.trans hfr.2.2.2.2.2.2⟩
    · exact ih s t h

theorem kalloc_effect (s : KState) (id : Fin 8) (t : KState) (r : Nat)
    (h : kalloc s id = some (t, some r)) :
    t.kend = s.kend ∧ t.pts = s.pts ∧ t.initializing = s.initializing ∧
    t.mapFail = s.mapFail ∧
    t.mem = (fun a => if a = r then PageData.fill 5 else s.mem a) ∧
    (¬(r % U32 < s.kend ∨ PHYSTOP < r % U32) →
      t.refcnt = (fun j => if j = PA2INDEX s.kend r
        then s.refcnt (PA2INDEX s.kend r) + 1 else s.refcnt j)) := by
  unfold kalloc at h
  rcases hsl : (if (s.cores id).size = 0
      then stealLoop s id (List.finRange 8) else some s) with _ | s1
  · rw [hsl] at h
    exact Option.noConfusion h
  · rw [hsl] at h
    dsimp only at h
    have hfr : s1.kend = s.kend ∧ s1.refcnt = s.refcnt ∧ s1.mem = s.mem ∧
        s1.pts = s.pts ∧ s1.initializing = s.initializing ∧
        s1.mapFail = s.mapFail ∧ s1.log = s.log := by
      by_cases hz : (s.cores id).size = 0
      · rw [if_pos hz] at hsl
        exact stealLoop_frame id (List.finRange 8) s s1 hsl
      · rw [if_neg hz] at hsl
        simp only [Option.some.injEq] at hsl
        subst hsl
        exact ⟨rfl, rfl, rfl, rfl, rfl, rfl, rfl⟩
    rcases hfl : (s1.cores id).freelist with _ | ⟨r0, rest⟩
    · rw [hfl] at h
      dsimp only at h
      simp only [Option.some.injEq, Prod.mk.injEq] at h
      exact Option.noConfusion h.2
    · rw [hfl] at h
      dsimp only at h
      simp only [Option.some.injEq, Prod.mk.injEq] at h
      obtain ⟨ht, hr0⟩ := h
      subst hr0
      subst ht
      unfold inc_page_ref
      by_cases hv : r0 % U32 < s.kend ∨ PHYSTOP < r0 % U32
      · rw [is_pa_valid_bad _ r0 (by
          dsimp only
          rw [hfr.1]
          exact hv)]
        dsimp only
        rw [if_pos rfl]
        dsimp only
        refine ⟨hfr.1, hfr.2.2.2.1, hfr.2.2.2.2.1, hfr.2.2.2.2.2.1, ?_, ?_⟩
        · rw [hfr.2.2.1]
        · intro hc
          exact absurd hv hc
      · rw [is_pa_valid_pass _ r0 (by
          dsimp only
          rw [hfr.1]
          exact hv)]
        dsimp only
        rw [if_neg (by decide)]
        dsimp only
        refine ⟨hfr.1, hfr.2.2.2.1, hfr.2.2.2.2.1, hfr.2.2.2.2.2.1, ?_, ?_⟩
        · rw [hfr.2.2.1]
        · intro _
          rw [hfr.2.1, hfr.1]

theorem PGROUNDDOWN_div (v : Nat) : PGROUNDDOWN v / PGSIZE = v / PGSIZE := by
  simp only [PGROUNDDOWN, PGSIZE]; omega

theorem lazy_dispatch (s : KState) (id : Fin 8) (ptid va : Nat)
    (hw : ∀ pte, walk s ptid va = some pte → pte.flags.valid = false) :
    lazyalloc_pagefault_handler s id ptid va = lazyInstall s id ptid va := by
  unfold lazyalloc_pagefault_handler
  rcases hwv : walk s ptid va with _ | pte
  · rfl
  · dsimp only
    rw [hw pte hwv]
    rw [if_neg Bool.false_ne_true]

theorem lazyInstall_success (s : KState) (id : Fin 8) (ptid va : Nat)
    (t : KState) (m : Nat)
    (hk : kalloc s id = some (t, some m)) (hmf : t.mapFail = false) :
    lazyInstall s id ptid va = some (0,
      mapInstall { t with mem := fun a => if a = m then PageData.fill 0 else t.mem a }
        ptid (PGROUNDDOWN va) m
        { valid := false, user := true, read := true, write := true, cow := false }) := by
  unfold lazyInstall
  rw [hk]
  unfold mappages
  dsimp only
  rw [hmf]
  rw [if_neg Bool.false_ne_true]
  rfl

/-- C7: lazy-allocation fault resolution.  If a valid mapping already
exists the call is a no-op success returning the state unchanged; if no
valid mapping exists and kalloc fails the handler reports -1 upward (it
returns, rather than halting); if kalloc yields a page and the external
install step does not fail, the page is zeroed and installed at the
page-aligned faulting address with user/read/write permission. -/
theorem lazy_fault_resolution_spec (s₁ s₂ s₃ : KState) (i₁ i₂ i₃ : Fin 8)
    (pt₁ pt₂ pt₃ v₁ v₂ v₃ : Nat) (pte₁ : PTE) (m₃ : Nat) (t₃ : KState) :
    (walk s₁ pt₁ v₁ = some pte₁ → pte₁.flags.valid = true →
      lazyalloc_pagefault_handler s₁ i₁ pt₁ v₁ = some (0, s₁)) ∧
    ((∀ pte, walk s₂ pt₂ v₂ = some pte → pte.flags.valid = false) →
      kallocOk s₂ i₂ = true → kallocRes s₂ i₂ = none →
      lazyRes s₂ i₂ pt₂ v₂ = some (-1)) ∧
    ((∀ pte, walk s₃ pt₃ v₃ = some pte → pte.flags.valid = false) →
      kalloc s₃ i₃ = some (t₃, some m₃) → s₃.mapFail = false →
      lazyRes s₃ i₃ pt₃ v₃ = some 0 ∧
      (lazySt s₃ i₃ pt₃ v₃).pts pt₃ (v₃ / PGSIZE) =
        some ⟨m₃ / PGSIZE,
          { valid := true, user := true, read := true, write := true, cow := false }⟩ ∧
      (lazySt s₃ i₃ pt₃ v₃).mem m₃ = PageData.fill 0) := by
  refine ⟨?_, ?_, ?_⟩
  · intro hw hval
    unfold lazyalloc_pagefault_handler
    rw [hw]
    dsimp only
    rw [if_pos hval]
  · intro hw hok hres
    rcases hk : kalloc s₂ i₂ with _ | ⟨t, ro⟩
    · rw [kallocOk, hk] at hok
      exact Bool.noConfusion hok
    · have hro : ro = none := by rw [kallocRes, hk] at hres; exact hres
      subst hro
      have hli : lazyInstall s₂ i₂ pt₂ v₂ = some (-1, t) := by
        unfold lazyInstall
        rw [hk]
      rw [lazyRes, lazy_dispatch s₂ i₂ pt₂ v₂ hw, hli]
      rfl
  · intro hw hk hmf
    have heff := kalloc_effect s₃ i₃ t₃ m₃ hk
    have hmf' : t₃.mapFail = false := heff.2.2.2.1.trans hmf
    have hli := lazyInstall_success s₃ i₃ pt₃ v₃ t₃ m₃ hk hmf'
    have hgoal : lazyalloc_pagefault_handler s₃ i₃ pt₃ v₃ = some (0,
        mapInstall { t₃ with mem := fun a => if a = m₃ then PageData.fill 0 else t₃.mem a }
          pt₃ (PGROUNDDOWN v₃) m₃
          { valid := false, user := true, read := true, write := true, cow := false }) :=
      (lazy_dispatch s₃ i₃ pt₃ v₃ hw).trans hli
    refine ⟨?_, ?_, ?_⟩
    · rw [lazyRes, hgoal]
      rfl
    · rw [lazySt, hgoal]
      dsimp only
      unfold mapInstall
      dsimp only
      rw [if_pos ⟨rfl, (PGROUNDDOWN_div v₃).symm⟩]
    · rw [lazySt, hgoal]
      dsimp only
      unfold mapInstall
      dsimp only
      rw [if_pos rfl]

/-- Witness for lazy_fault_resolution_spec: a valid mapping gives a
no-op success; an empty machine reports -1; with a free page on core 0
the fault installs a zeroed user/read/write page at virtual page 0. -/
theorem lazy_fault_resolution_spec_witness :
    lazyalloc_pagefault_handler sPteV 0 0 0 = some (0, sPteV) ∧
    lazyRes baseS 0 0 0 = some (-1) ∧
    lazyRes sLazy 0 0 0 = some 0 ∧
    (lazySt sLazy 0 0 0).pts 0 (0 / PGSIZE) =
      some ⟨0x80300000 / PGSIZE,
        { valid := true, user := true, read := true, write := true, cow := false }⟩ ∧
    (lazySt sLazy 0 0 0).mem 0x80300000 = PageData.fill 0 :=
  have h := lazy_fault_resolution_spec sPteV baseS sLazy 0 0 0 0 0 0 0 0 0
    ⟨0x80200, flPlain⟩ 0x80300000 (kallocSt sLazy 0)
  have h3 := h.2.2 (by
      intro pte hp
      rw [show walk sLazy 0 0 = none from rfl] at hp
      exact Option.noConfusion hp) rfl rfl
  ⟨h.1 (by decide) (by decide),
   h.2.1 (by
      intro pte hp
      rw [show walk baseS 0 0 = none from rfl] at hp
      exact Option.noConfusion hp) (by decide) (by decide),
   h3.1, h3.2.1, h3.2.2⟩

theorem cow_copy_success (s : KState) (i : Fin 8) (pt v : Nat) (pte : PTE)
    (t : KState) (m : Nat)
    (hw : walk s pt v = some pte)
    (hppn : pte.ppn ≠ 0)
    (hcow : pte.flags.cow = true)
    (hpa1 : s.kend ≤ pte.ppn * PGSIZE) (hpa2 : pte.ppn * PGSIZE < PHYSTOP)
    (hcnt : 1 < (get_page_ref s (pte.ppn * PGSIZE)).1)
    (hk : kalloc s i = some (t, some m))
    (hma : m % PGSIZE = 0) (hm1 : s.kend ≤ m) (hm2 : m < PHYSTOP)
    (hmne : m ≠ pte.ppn * PGSIZE)
    (hinit : s.initializing = false)
    (hmf : s.mapFail = false) :
    cowRes s i pt v = some 0 ∧
    (cowSt s i pt v).pts pt (v / PGSIZE) =
      some ⟨m / PGSIZE, { pte.flags with valid := true, cow := false, write := true }⟩ ∧
    (∀ q, q ≠ pt → (cowSt s i pt v).pts q = s.pts q) ∧
    (cowSt s i pt v).mem m = s.mem (pte.ppn * PGSIZE) ∧
    (get_page_ref (cowSt s i pt v) (pte.ppn * PGSIZE)).1 =
      (get_page_ref s (pte.ppn * PGSIZE)).1 - 1 := by
  have hpa0 : ¬ (pte.ppn * PGSIZE = 0) := by
    simp only [PGSIZE]
    exact Nat.mul_ne_zero hppn (by decide)
  have hcowne : ¬ (pte.flags.cow = false) := by rw [hcow]; decide
  have hpaal : pte.ppn * PGSIZE % PGSIZE = 0 := Nat.mul_mod_left pte.ppn PGSIZE
  have hg := get_page_ref_ok s (pte.ppn * PGSIZE) hpa1 hpa2
  have hcnt' : 1 < s.refcnt (PA2INDEX s.kend (pte.ppn * PGSIZE)) := by
    rw [hg] at hcnt
    exact hcnt
  have heff := kalloc_effect s i t m hk
  have hmv : ¬(m % U32 < s.kend ∨ PHYSTOP < m % U32) := valid_range_not s m hm1 hm2
  have htr := heff.2.2.2.2.2 hmv
  have hidx : PA2INDEX s.kend (pte.ppn * PGSIZE) ≠ PA2INDEX s.kend m := by
    intro hc
    exact hmne (PA2INDEX_inj s.kend (pte.ppn * PGSIZE) m hpaal hpa1 hpa2 hma hm1 hm2 hc).symm
  have hwp : s.pts pt (v / PGSIZE) = some pte := hw
  have hS2 : (ptsClear (memCopy t m (pte.ppn * PGSIZE)) pt v).kend = s.kend := heff.1
  have hS2r : (ptsClear (memCopy t m (pte.ppn * PGSIZE)) pt v).refcnt = t.refcnt := rfl
  have hc2 : 1 < (ptsClear (memCopy t m (pte.ppn * PGSIZE)) pt v).refcnt
      (PA2INDEX (ptsClear (memCopy t m (pte.ppn * PGSIZE)) pt v).kend (pte.ppn * PGSIZE)) := by
    rw [hS2r, hS2, htr]
    dsimp only
    rw [if_neg hidx]
    exact hcnt'
  have hkf := kfree_shared_eq (ptsClear (memCopy t m (pte.ppn * PGSIZE)) pt v) i
    (pte.ppn * PGSIZE) hpaal (hS2.symm ▸ hpa1) (by exact hpa2)
    (heff.2.2.1.trans hinit) hc2
  unfold cowRes cowSt cow_pagefault_handler
  rw [hw]
  dsimp only
  rw [if_neg hpa0, if_neg hcowne, hg]
  dsimp only
  rw [if_pos hcnt', hk]
  dsimp only
  unfold uvmunmap
  rw [show (memCopy t m (pte.ppn * PGSIZE)).pts pt (v / PGSIZE) = some pte from
    (heff.2.1.symm ▸ hwp : t.pts pt (v / PGSIZE) = some pte)]
  dsimp only
  rw [hkf]
  dsimp only
  unfold mappages
  dsimp only [ptsClear, memCopy]
  rw [heff.2.2.2.1, hmf]
  rw [if_neg Bool.false_ne_true]
  rw [if_pos rfl]
  dsimp only
  refine ⟨rfl, ?_, ?_, ?_, ?_⟩
  · simp only [mapInstall]
    rw [if_pos ⟨trivial, (PGROUNDDOWN_div v).symm⟩]
  · intro q hq
    funext w
    simp only [mapInstall]
    rw [if_neg (fun hc => hq hc.1)]
    rw [if_neg (fun hc => hq hc.1)]
    exact congrFun (congrFun heff.2.1 q) w
  · simp only [mapInstall]
    rw [if_pos trivial]
    rw [heff.2.2.2.2.1]
    dsimp only
    rw [if_neg (fun hc : pte.ppn * PGSIZE = m => hmne hc.symm)]
  · unfold get_page_ref is_pa_valid
    simp only [mapInstall]
    rw [heff.1]
    rw [if_neg (valid_range_not s (pte.ppn * PGSIZE) hpa1 hpa2)]
    dsimp only
    rw [if_neg (by decide : ¬((0 : Int) = -1))]
    dsimp only
    rw [if_pos trivial]
    rw [htr]
    dsimp only
    rw [if_neg hidx]

theorem kfree_shared_eq2 (s : KState) (id : Fin 8) (pa : Nat)
    (h0 : pa % PGSIZE = 0) (h1 : s.kend ≤ pa) (h2 : pa < PHYSTOP)
    (hi : s.initializing = false) (hc : 1 < s.refcnt (PA2INDEX s.kend pa)) :
    kfree s id pa = some (dec_page_ref s pa).2 := by
  have hni : ¬ (s.initializing = true) := by rw [hi]; simp
  have hgt : 1 < (dec_page_ref s pa).1 := by
    rw [dec_page_ref_ok s pa h1 h2]
    exact hc
  unfold kfree
  rw [if_neg (kfree_checks_pass s pa h0 h1 h2), if_neg hni, if_pos hgt]

theorem is_pa_valid_frame (s : KState) (pa : Nat) :
    ((is_pa_valid s pa).2).kend = s.kend ∧ ((is_pa_valid s pa).2).cores = s.cores ∧
    ((is_pa_valid s pa).2).mem = s.mem ∧ ((is_pa_valid s pa).2).pts = s.pts ∧
    ((is_pa_valid s pa).2).initializing = s.initializing ∧
    ((is_pa_valid s pa).2).mapFail = s.mapFail := by
  unfold is_pa_valid
  split
  · exact ⟨rfl, rfl, rfl, rfl, rfl, rfl⟩
  · exact ⟨rfl, rfl, rfl, rfl, rfl, rfl⟩

theorem dec_page_ref_frame (s : KState) (pa : Nat) :
    ((dec_page_ref s pa).2).kend = s.kend ∧ ((dec_page_ref s pa).2).cores = s.cores ∧
    ((dec_page_ref s pa).2).mem = s.mem ∧ ((dec_page_ref s pa).2).pts = s.pts ∧
    ((dec_page_ref s pa).2).initializing = s.initializing ∧
    ((dec_page_ref s pa).2).mapFail = s.mapFail := by
  unfold dec_page_ref
  dsimp only
  split
  · exact is_pa_valid_frame s pa
  · exact ⟨rfl, rfl, rfl, rfl, rfl, rfl⟩

theorem kfreePush_cores_self (s : KState) (id : Fin 8) (pa : Nat) :
    ((kfreePush s id pa).cores id).freelist = pa :: (s.cores id).freelist := by
  unfold kfreePush
  dsimp only
  rw [if_pos rfl]

theorem kfree_owner_eq2 (s : KState) (id : Fin 8) (pa : Nat)
    (h0 : pa % PGSIZE = 0) (h1 : s.kend ≤ pa) (h2 : pa < PHYSTOP)
    (hi : s.initializing = false) (hc : ¬ 1 < s.refcnt (PA2INDEX s.kend pa)) :
    kfree s id pa = some (kfreePush (dec_page_ref s pa).2 id pa) := by
  have hni : ¬ (s.initializing = true) := by rw [hi]; simp
  have hgt : ¬ 1 < (dec_page_ref s pa).1 := by
    rw [dec_page_ref_ok s pa h1 h2]
    exact hc
  unfold kfree
  rw [if_neg (kfree_checks_pass s pa h0 h1 h2), if_neg hni, if_neg hgt]

theorem kfreePush_kend (s : KState) (id : Fin 8) (pa : Nat) :
    (kfreePush s id pa).kend = s.kend := rfl

theorem kfreePush_refcnt (s : KState) (id : Fin 8) (pa : Nat) :
    (kfreePush s id pa).refcnt = s.refcnt := rfl

theorem cow_copy_install_fail (s : KState) (i : Fin 8) (pt v : Nat) (pte : PTE)
    (t : KState) (m : Nat)
    (hw : walk s pt v = some pte)
    (hppn : pte.ppn ≠ 0)
    (hcow : pte.flags.cow = true)
    (hpa1 : s.kend ≤ pte.ppn * PGSIZE) (hpa2 : pte.ppn * PGSIZE < PHYSTOP)
    (hcnt : 1 < (get_page_ref s (pte.ppn * PGSIZE)).1)
    (hk : kalloc s i = some (t, some m))
    (hma : m % PGSIZE = 0) (hm1 : s.kend ≤ m) (hm2 : m < PHYSTOP)
    (hmne : m ≠ pte.ppn * PGSIZE)
    (hinit : s.initializing = false)
    (hmf : s.mapFail = true)
    (hm0 : (get_page_ref s m).1 = 0) :
    cowRes s i pt v = some (-1) ∧
    (get_page_ref (cowSt s i pt v) m).1 = 0 ∧
    m ∈ ((cowSt s i pt v).cores i).freelist := by
  have hpa0 : ¬ (pte.ppn * PGSIZE = 0) := by
    simp only [PGSIZE]
    exact Nat.mul_ne_zero hppn (by decide)
  have hcowne : ¬ (pte.flags.cow = false) := by rw [hcow]; decide
  have hpaal : pte.ppn * PGSIZE % PGSIZE = 0 := Nat.mul_mod_left pte.ppn PGSIZE
  have hg := get_page_ref_ok s (pte.ppn * PGSIZE) hpa1 hpa2
  have hgm := get_page_ref_ok s m hm1 hm2
  have hcnt' : 1 < s.refcnt (PA2INDEX s.kend (pte.ppn * PGSIZE)) := by
    rw [hg] at hcnt
    exact hcnt
  have hm0' : s.refcnt (PA2INDEX s.kend m) = 0 := by
    rw [hgm] at hm0
    exact hm0
  have heff := kalloc_effect s i t m hk
  have hmv : ¬(m % U32 < s.kend ∨ PHYSTOP < m % U32) := valid_range_not s m hm1 hm2
  have htr := heff.2.2.2.2.2 hmv
  have hidx : PA2INDEX s.kend (pte.ppn * PGSIZE) ≠ PA2INDEX s.kend m := by
    intro hc
    exact hmne (PA2INDEX_inj s.kend (pte.ppn * PGSIZE) m hpaal hpa1 hpa2 hma hm1 hm2 hc).symm
  have hwp : s.pts pt (v / PGSIZE) = some pte := hw
  have hS2 : (ptsClear (memCopy t m (pte.ppn * PGSIZE)) pt v).kend = s.kend := heff.1
  have hS2r : (ptsClear (memCopy t m (pte.ppn * PGSIZE)) pt v).refcnt = t.refcnt := rfl
  have hc2 : 1 < (ptsClear (memCopy t m (pte.ppn * PGSIZE)) pt v).refcnt
      (PA2INDEX (ptsClear (memCopy t m (pte.ppn * PGSIZE)) pt v).kend (pte.ppn * PGSIZE)) := by
    rw [hS2r, hS2, htr]
    dsimp only
    rw [if_neg hidx]
    exact hcnt'
  have hkf := kfree_shared_eq2 (ptsClear (memCopy t m (pte.ppn * PGSIZE)) pt v) i
    (pte.ppn * PGSIZE) hpaal (hS2.symm ▸ hpa1) hpa2 (heff.2.2.1.trans hinit) hc2
  have hAfr := dec_page_ref_frame (ptsClear (memCopy t m (pte.ppn * PGSIZE)) pt v)
    (pte.ppn * PGSIZE)
  have hAk : ((dec_page_ref (ptsClear (memCopy t m (pte.ppn * PGSIZE)) pt v)
      (pte.ppn * PGSIZE)).2).kend = s.kend := hAfr.1.trans hS2
  have hAinit : ((dec_page_ref (ptsClear (memCopy t m (pte.ppn * PGSIZE)) pt v)
      (pte.ppn * PGSIZE)).2).initializing = false :=
    hAfr.2.2.2.2.1.trans (heff.2.2.1.trans hinit)
  have hAmf : ((dec_page_ref (ptsClear (memCopy t m (pte.ppn * PGSIZE)) pt v)
      (pte.ppn * PGSIZE)).2).mapFail = true :=
    hAfr.2.2.2.2.2.trans (heff.2.2.2.1.trans hmf)
  have hAr : ((dec_page_ref (ptsClear (memCopy t m (pte.ppn * PGSIZE)) pt v)
      (pte.ppn * PGSIZE)).2).refcnt (PA2INDEX s.kend m) = 1 := by
    rw [dec_page_ref_ok (ptsClear (memCopy t m (pte.ppn * PGSIZE)) pt v)
      (pte.ppn * PGSIZE) (hS2.symm ▸ hpa1) hpa2]
    dsimp only
    rw [hS2]
    rw [if_neg (fun hc => hidx hc.symm), hS2r, htr]
    dsimp only
    rw [if_pos rfl, hm0']
    decide
  have hAcnt : ¬ 1 < ((dec_page_ref (ptsClear (memCopy t m (pte.ppn * PGSIZE)) pt v)
      (pte.ppn * PGSIZE)).2).refcnt (PA2INDEX ((dec_page_ref (ptsClear (memCopy t m
        (pte.ppn * PGSIZE)) pt v) (pte.ppn * PGSIZE)).2).kend m) := by
    rw [hAk, hAr]
    decide
  have hkm := kfree_owner_eq2 ((dec_page_ref (ptsClear (memCopy t m (pte.ppn * PGSIZE)) pt v)
      (pte.ppn * PGSIZE)).2) i m hma (hAk.symm ▸ hm1) hm2 hAinit hAcnt
  have hA2fr := dec_page_ref_frame ((dec_page_ref (ptsClear (memCopy t m
      (pte.ppn * PGSIZE)) pt v) (pte.ppn * PGSIZE)).2) m
  have hA2k : ((dec_page_ref ((dec_page_ref (ptsClear (memCopy t m (pte.ppn * PGSIZE)) pt v)
      (pte.ppn * PGSIZE)).2) m).2).kend = s.kend := hA2fr.1.trans hAk
  have hfinal : ((dec_page_ref ((dec_page_ref (ptsClear (memCopy t m (pte.ppn * PGSIZE)) pt v)
      (pte.ppn * PGSIZE)).2) m).2).refcnt (PA2INDEX s.kend m) = 0 := by
    rw [dec_page_ref_ok ((dec_page_ref (ptsClear (memCopy t m (pte.ppn * PGSIZE)) pt v)
      (pte.ppn * PGSIZE)).2) m (hAk.symm ▸ hm1) hm2]
    dsimp only
    rw [hAk]
    rw [if_pos rfl, hAr]
    decide
  unfold cowRes cowSt cow_pagefault_handler
  rw [hw]
  dsimp only
  rw [if_neg hpa0, if_neg hcowne, hg]
  dsimp only
  rw [if_pos hcnt', hk]
  dsimp only
  unfold uvmunmap
  rw [show (memCopy t m (pte.ppn * PGSIZE)).pts pt (v / PGSIZE) = some pte from
    (heff.2.1.symm ▸ hwp : t.pts pt (v / PGSIZE) = some pte)]
  dsimp only
  rw [hkf]
  dsimp only
  unfold mappages
  rw [if_pos hAmf]
  dsimp only
  rw [if_neg (by decide : ¬((-1 : Int) = 0))]
  rw [hkm]
  dsimp only
  refine ⟨rfl, ?_, ?_⟩
  · unfold get_page_ref is_pa_valid
    dsimp only
    rw [kfreePush_kend, hA2k]
    rw [if_neg (valid_range_not s m hm1 hm2)]
    dsimp only
    rw [if_neg (by decide : ¬((0 : Int) = -1))]
    dsimp only
    rw [kfreePush_refcnt, hfinal]
  · rw [kfreePush_cores_self]
    exact List.mem_cons_self m _

/-- C6: copy-on-write fault resolution.  No mapping: failure.  Marker
clear: no-op success.  Marker set with a shared page (count above 1): a
fresh page is allocated, the old contents are copied into it, the old
mapping of this table alone is dropped (releasing one reference), and
the copy is installed writable with the marker cleared; if that install
fails the fresh page is released (count back to 0, page on the free
list) before -1 is reported.  Marker set with count exactly 1: the entry
is upgraded in place, reusing the same physical page with cores, counts
and memory untouched. -/
theorem cow_fault_resolution_spec
    (s₁ s₂ s₃ s₄ s₅ : KState) (i₁ i₂ i₃ i₄ i₅ : Fin 8)
    (a₁ a₂ a₃ a₄ a₅ b₁ b₂ b₃ b₄ b₅ : Nat)
    (q₂ q₃ q₄ q₅ : PTE) (t₃ t₄ : KState) (m₃ m₄ : Nat) :
    (walk s₁ a₁ b₁ = none → cow_pagefault_handler s₁ i₁ a₁ b₁ = some (-1, s₁)) ∧
    (walk s₂ a₂ b₂ = some q₂ → q₂.ppn ≠ 0 → q₂.flags.cow = false →
      cow_pagefault_handler s₂ i₂ a₂ b₂ = some (0, s₂)) ∧
    (walk s₃ a₃ b₃ = some q₃ → q₃.ppn ≠ 0 → q₃.flags.cow = true →
      s₃.kend ≤ q₃.ppn * PGSIZE → q₃.ppn * PGSIZE < PHYSTOP →
      1 < (get_page_ref s₃ (q₃.ppn * PGSIZE)).1 →
      kalloc s₃ i₃ = some (t₃, some m₃) →
      m₃ % PGSIZE = 0 → s₃.kend ≤ m₃ → m₃ < PHYSTOP → m₃ ≠ q₃.ppn * PGSIZE →
      s₃.initializing = false → s₃.mapFail = false →
      cowRes s₃ i₃ a₃ b₃ = some 0 ∧
      (cowSt s₃ i₃ a₃ b₃).pts a₃ (b₃ / PGSIZE) =
        some ⟨m₃ / PGSIZE, { q₃.flags with valid := true, cow := false, write := true }⟩ ∧
      (∀ q, q ≠ a₃ → (cowSt s₃ i₃ a₃ b₃).pts q = s₃.pts q) ∧
      (cowSt s₃ i₃ a₃ b₃).mem m₃ = s₃.mem (q₃.ppn * PGSIZE) ∧
      (get_page_ref (cowSt s₃ i₃ a₃ b₃) (q₃.ppn * PGSIZE)).1 =
        (get_page_ref s₃ (q₃.ppn * PGSIZE)).1 - 1) ∧
    (walk s₄ a₄ b₄ = some q₄ → q₄.ppn ≠ 0 → q₄.flags.cow = true →
      s₄.kend ≤ q₄.ppn * PGSIZE → q₄.ppn * PGSIZE < PHYSTOP →
      1 < (get_page_ref s₄ (q₄.ppn * PGSIZE)).1 →
      kalloc s₄ i₄ = some (t₄, some m₄) →
      m₄ % PGSIZE = 0 → s₄.kend ≤ m₄ → m₄ < PHYSTOP → m₄ ≠ q₄.ppn * PGSIZE →
      s₄.initializing = false → s₄.mapFail = true →
      (get_page_ref s₄ m₄).1 = 0 →
      cowRes s₄ i₄ a₄ b₄ = some (-1) ∧
      (get_page_ref (cowSt s₄ i₄ a₄ b₄) m₄).1 = 0 ∧
      m₄ ∈ ((cowSt s₄ i₄ a₄ b₄).cores i₄).freelist) ∧
    (walk s₅ a₅ b₅ = some q₅ → q₅.ppn ≠ 0 → q₅.flags.cow = true →
      s₅.kend ≤ q₅.ppn * PGSIZE → q₅.ppn * PGSIZE < PHYSTOP →
      (get_page_ref s₅ (q₅.ppn * PGSIZE)).1 = 1 →
      cow_pagefault_handler s₅ i₅ a₅ b₅ = some (0, cowUpgrade s₅ a₅ b₅ q₅) ∧
      (cowUpgrade s₅ a₅ b₅ q₅).pts a₅ (b₅ / PGSIZE) =
        some ⟨q₅.ppn, { q₅.flags with cow := false, write := true }⟩ ∧
      (cowUpgrade s₅ a₅ b₅ q₅).cores = s₅.cores ∧
      (cowUpgrade s₅ a₅ b₅ q₅).refcnt = s₅.refcnt ∧
      (cowUpgrade s₅ a₅ b₅ q₅).mem = s₅.mem) := by
  refine ⟨?_, ?_, ?_, ?_, ?_⟩
  · intro hw
    unfold cow_pagefault_handler
    rw [hw]
  · intro hw hppn hcow
    have hpa0 : ¬ (q₂.ppn * PGSIZE = 0) := by
      simp only [PGSIZE]
      exact Nat.mul_ne_zero hppn (by decide)
    unfold cow_pagefault_handler
    rw [hw]
    dsimp only
    rw [if_neg hpa0, if_pos hcow]
  · intro hw hppn hcow hpa1 hpa2 hcnt hk hma hm1 hm2 hmne hinit hmf
    exact cow_copy_success s₃ i₃ a₃ b₃ q₃ t₃ m₃ hw hppn hcow hpa1 hpa2 hcnt hk
      hma hm1 hm2 hmne hinit hmf
  · intro hw hppn hcow hpa1 hpa2 hcnt hk hma hm1 hm2 hmne hinit hmf hm0
    exact cow_copy_install_fail s₄ i₄ a₄ b₄ q₄ t₄ m₄ hw hppn hcow hpa1 hpa2 hcnt hk
      hma hm1 hm2 hmne hinit hmf hm0
  · intro hw hppn hcow hpa1 hpa2 hone
    have hpa0 : ¬ (q₅.ppn * PGSIZE = 0) := by
      simp only [PGSIZE]
      exact Nat.mul_ne_zero hppn (by decide)
    have hcowne : ¬ (q₅.flags.cow = false) := by rw [hcow]; decide
    have hg := get_page_ref_ok s₅ (q₅.ppn * PGSIZE) hpa1 hpa2
    have hone' : s₅.refcnt (PA2INDEX s₅.kend (q₅.ppn * PGSIZE)) = 1 := by
      rw [hg] at hone
      exact hone
    refine ⟨?_, ?_, rfl, rfl, rfl⟩
    · unfold cow_pagefault_handler
      rw [hw]
      dsimp only
      rw [if_neg hpa0, if_neg hcowne, hg]
      dsimp only
      rw [if_neg (by rw [hone']; decide)]
    · unfold cowUpgrade
      dsimp only
      rw [if_pos ⟨rfl, rfl⟩]

/-- Witness for cow_fault_resolution_spec: on the toy machine, an empty
table fails; a plain mapping is a no-op; the shared-page scenario copies
into the free page 0x80300000, remaps table 0 and drops the old count
from 2 to 1; the same scenario with a failing install releases the new
page back to core 0; the sole-owner scenario upgrades the entry in
place. -/
theorem cow_fault_resolution_spec_witness :
    cow_pagefault_handler baseS 0 0 0 = some (-1, baseS) ∧
    cow_pagefault_handler sPteV 0 0 0 = some (0, sPteV) ∧
    cowRes sCowCopy 0 0 0 = some 0 ∧
    (cowSt sCowCopy 0 0 0).pts 0 (0 / PGSIZE) =
      some ⟨0x80300000 / PGSIZE, { flCow with valid := true, cow := false, write := true }⟩ ∧
    (cowSt sCowCopy 0 0 0).pts 1 = sCowCopy.pts 1 ∧
    (cowSt sCowCopy 0 0 0).mem 0x80300000 = sCowCopy.mem 0x80200000 ∧
    (get_page_ref (cowSt sCowCopy 0 0 0) 0x80200000).1 =
      (get_page_ref sCowCopy 0x80200000).1 - 1 ∧
    cowRes sCowFail 0 0 0 = some (-1) ∧
    (get_page_ref (cowSt sCowFail 0 0 0) 0x80300000).1 = 0 ∧
    0x80300000 ∈ ((cowSt sCowFail 0 0 0).cores 0).freelist ∧
    cow_pagefault_handler sCowOne 0 0 0 = some (0, cowUpgrade sCowOne 0 0 ⟨0x80200, flCow⟩) ∧
    (cowUpgrade sCowOne 0 0 ⟨0x80200, flCow⟩).pts 0 (0 / PGSIZE) =
      some ⟨0x80200, { flCow with cow := false, write := true }⟩ ∧
    (cowUpgrade sCowOne 0 0 ⟨0x80200, flCow⟩).cores = sCowOne.cores ∧
    (cowUpgrade sCowOne 0 0 ⟨0x80200, flCow⟩).refcnt = sCowOne.refcnt ∧
    (cowUpgrade sCowOne 0 0 ⟨0x80200, flCow⟩).mem = sCowOne.mem :=
  have h := cow_fault_resolution_spec baseS sPteV sCowCopy sCowFail sCowOne
    0 0 0 0 0 0 0 0 0 0 0 0 0 0 0
    ⟨0x80200, flPlain⟩ ⟨0x80200, flCow⟩ ⟨0x80200, flCow⟩ ⟨0x80200, flCow⟩
    (kallocSt sCowCopy 0) (kallocSt sCowFail 0) 0x80300000 0x80300000
  have h3 := h.2.2.1 rfl (by decide) rfl (by decide) (by decide) (by decide) rfl
    (by decide) (by decide) (by decide) (by decide) rfl rfl
  have h4 := h.2.2.2.1 rfl (by decide) rfl (by decide) (by decide) (by decide) rfl
    (by decide) (by decide) (by decide) (by decide) rfl rfl (by decide)
  have h5 := h.2.2.2.2 rfl (by decide) rfl (by decide) (by decide) (by decide)
  ⟨h.1 rfl, h.2.1 rfl (by decide) rfl,
   h3.1, h3.2.1, h3.2.2.1 1 (by decide), h3.2.2.2.1, h3.2.2.2.2,
   h4.1, h4.2.1, h4.2.2,
   h5.1, h5.2.1, h5.2.2.1, h5.2.2.2.1, h5.2.2.2.2⟩

/-- C10: install-failure asymmetry.  When the lazy-allocation handler
allocates a page and the external install step then fails, it reports -1
without releasing the page: the page's count stays at 1 (the kalloc
increment) and no core's free list changes after the allocation, so the
page sits on no free list.  The copy-on-write handler in the same
situation releases its fresh page: the count returns to 0 and the page
reappears on the caller core's free list. -/
theorem install_failure_leak_spec
    (s₁ s₂ : KState) (i₁ i₂ : Fin 8) (p₁ a₂ v₁ b₂ : Nat)
    (t₁ t₂ : KState) (m₁ m₂ : Nat) (q₂ : PTE) :
    ((∀ pte, walk s₁ p₁ v₁ = some pte → pte.flags.valid = false) →
      kalloc s₁ i₁ = some (t₁, some m₁) →
      s₁.mapFail = true →
      s₁.kend ≤ m₁ → m₁ < PHYSTOP →
      (get_page_ref s₁ m₁).1 = 0 →
      lazyRes s₁ i₁ p₁ v₁ = some (-1) ∧
      (get_page_ref (lazySt s₁ i₁ p₁ v₁) m₁).1 = 1 ∧
      (lazySt s₁ i₁ p₁ v₁).cores = t₁.cores ∧
      (∀ c, m₁ ∉ (t₁.cores c).freelist →
        m₁ ∉ ((lazySt s₁ i₁ p₁ v₁).cores c).freelist)) ∧
    (walk s₂ a₂ b₂ = some q₂ → q₂.ppn ≠ 0 → q₂.flags.cow = true →
      s₂.kend ≤ q₂.ppn * PGSIZE → q₂.ppn * PGSIZE < PHYSTOP →
      1 < (get_page_ref s₂ (q₂.ppn * PGSIZE)).1 →
      kalloc s₂ i₂ = some (t₂, some m₂) →
      m₂ % PGSIZE = 0 → s₂.kend ≤ m₂ → m₂ < PHYSTOP → m₂ ≠ q₂.ppn * PGSIZE →
      s₂.initializing = false → s₂.mapFail = true →
      (get_page_ref s₂ m₂).1 = 0 →
      cowRes s₂ i₂ a₂ b₂ = some (-1) ∧
      (get_page_ref (cowSt s₂ i₂ a₂ b₂) m₂).1 = 0 ∧
      m₂ ∈ ((cowSt s₂ i₂ a₂ b₂).cores i₂).freelist) := by
  constructor
  · intro hw hk hmf hm1 hm2 hm0
    have heff := kalloc_effect s₁ i₁ t₁ m₁ hk
    have hmf' : t₁.mapFail = true := heff.2.2.2.1.trans hmf
    have htr := heff.2.2.2.2.2 (valid_range_not s₁ m₁ hm1 hm2)
    have hm0' : s₁.refcnt (PA2INDEX s₁.kend m₁) = 0 := by
      rw [get_page_ref_ok s₁ m₁ hm1 hm2] at hm0
      exact hm0
    have hli : lazyInstall s₁ i₁ p₁ v₁ = some (-1,
        { t₁ with mem := fun a => if a = m₁ then PageData.fill 0 else t₁.mem a }) := by
      unfold lazyInstall
      rw [hk]
      dsimp only
      unfold mappages
      rw [if_pos (show ({ t₁ with mem := fun a =>
        if a = m₁ then PageData.fill 0 else t₁.mem a } : KState).mapFail = true from hmf')]
      dsimp only
      rw [if_neg (by decide : ¬((-1 : Int) = 0))]
    have hgoal := (lazy_dispatch s₁ i₁ p₁ v₁ hw).trans hli
    refine ⟨?_, ?_, ?_, ?_⟩
    · rw [lazyRes, hgoal]
      rfl
    · rw [lazySt, hgoal]
      dsimp only
      unfold get_page_ref is_pa_valid
      dsimp only
      rw [show ({ t₁ with mem := fun a =>
        if a = m₁ then PageData.fill 0 else t₁.mem a } : KState).kend = s₁.kend from heff.1]
      rw [if_neg (valid_range_not s₁ m₁ hm1 hm2)]
      dsimp only
      rw [if_neg (by decide : ¬((0 : Int) = -1))]
      dsimp only
      rw [show ({ t₁ with mem := fun a =>
        if a = m₁ then PageData.fill 0 else t₁.mem a } : KState).refcnt = t₁.refcnt from rfl]
      rw [htr]
      dsimp only
      rw [if_pos rfl, hm0']
      decide
    · rw [lazySt, hgoal]
    · intro c hnc
      rw [lazySt, hgoal]
      exact hnc
  · intro hw hppn hcow hpa1 hpa2 hcnt hk hma hm1 hm2 hmne hinit hmf hm0
    exact cow_copy_install_fail s₂ i₂ a₂ b₂ q₂ t₂ m₂ hw hppn hcow hpa1 hpa2 hcnt hk
      hma hm1 hm2 hmne hinit hmf hm0

/-- Witness for install_failure_leak_spec: on the failing-install
machines, the lazy handler leaves page 0x80300000 with count 1 and off
every free list, while the copy-on-write handler returns it to core 0
with count 0. -/
theorem install_failure_leak_spec_witness :
    lazyRes sLazyLeak 0 0 0 = some (-1) ∧
    (get_page_ref (lazySt sLazyLeak 0 0 0) 0x80300000).1 = 1 ∧
    (lazySt sLazyLeak 0 0 0).cores = (kallocSt sLazyLeak 0).cores ∧
    0x80300000 ∉ ((lazySt sLazyLeak 0 0 0).cores 0).freelist ∧
    cowRes sCowFail 0 0 0 = some (-1) ∧
    (get_page_ref (cowSt sCowFail 0 0 0) 0x80300000).1 = 0 ∧
    0x80300000 ∈ ((cowSt sCowFail 0 0 0).cores 0).freelist :=
  have h := install_failure_leak_spec sLazyLeak sCowFail 0 0 0 0 0 0
    (kallocSt sLazyLeak 0) (kallocSt sCowFail 0) 0x80300000 0x80300000 ⟨0x80200, flCow⟩
  have h1 := h.1 (by
      intro pte hp
      rw [show walk sLazyLeak 0 0 = none from rfl] at hp
      exact Option.noConfusion hp) rfl rfl (by decide) (by decide) (by decide)
  have h2 := h.2 rfl (by decide) rfl (by decide) (by decide) (by decide) rfl
    (by decide) (by decide) (by decide) (by decide) rfl rfl (by decide)
  ⟨h1.1, h1.2.1, h1.2.2.1, h1.2.2.2 0 (by decide), h2.1, h2.2.1, h2.2.2⟩

/-- C8: user page-fault routing.  A load fault (scause 13) runs only the
lazy-allocation resolver and a store/AMO fault (scause 15) runs the
lazy-allocation resolver first and the copy-on-write resolver after it,
as the event lists and the handler-state compositions show.  An address
at or beyond the heap bound marks the process killed, but the returned
state is still the resolvers' post-state: the mark only takes effect
after fault processing.  A load fault below the bound whose resolver
succeeds leaves the process unkilled. -/
theorem usertrap_fault_routing_spec (s₁ s₂ : KState) (i₁ i₂ : Fin 8)
    (p₁ p₂ va₁ va₂ z₁ z₂ : Nat) (t₁ t₂ : KState) (k₁ k₂ : Bool) (e₁ e₂ : List Ev) :
    (usertrap_pf s₁ i₁ p₁ 13 va₁ z₁ = some (t₁, k₁, e₁) →
      e₁ = [Ev.lazy] ∧
      t₁ = lazySt s₁ i₁ p₁ va₁ ∧
      (z₁ ≤ va₁ → k₁ = true) ∧
      (lazyRes s₁ i₁ p₁ va₁ = some 0 → ¬ z₁ ≤ va₁ → k₁ = false)) ∧
    (usertrap_pf s₂ i₂ p₂ 15 va₂ z₂ = some (t₂, k₂, e₂) →
      e₂ = [Ev.lazy, Ev.cow] ∧
      t₂ = cowSt (lazySt s₂ i₂ p₂ va₂) i₂ p₂ va₂ ∧
      (z₂ ≤ va₂ → k₂ = true)) := by
  constructor
  · intro h
    unfold usertrap_pf at h
    rw [if_pos rfl] at h
    rcases hl : lazyalloc_pagefault_handler s₁ i₁ p₁ va₁ with _ | ⟨r1, s1⟩
    · rw [hl] at h
      exact Option.noConfusion h
    · rw [hl] at h
      simp only [Option.some.injEq, Prod.mk.injEq] at h
      obtain ⟨hs, hb, he⟩ := h
      refine ⟨he.symm, ?_, ?_, ?_⟩
      · rw [← hs, lazySt, hl]
      · intro hz
        rw [← hb, decide_eq_true hz, Bool.true_or]
      · intro hres hz
        have hr1 : r1 = 0 := by
          rw [lazyRes, hl] at hres
          exact Option.some.inj hres
        rw [← hb, hr1, decide_eq_false hz]
        decide
  · intro h
    unfold usertrap_pf at h
    rw [if_neg (by decide : ¬(15 = 13)), if_pos rfl] at h
    rcases hl : lazyalloc_pagefault_handler s₂ i₂ p₂ va₂ with _ | ⟨r1, s1⟩
    · rw [hl] at h
      exact Option.noConfusion h
    · rw [hl] at h
      dsimp only at h
      rcases hc : cow_pagefault_handler s1 i₂ p₂ va₂ with _ | ⟨r2, s2⟩
      · rw [hc] at h
        exact Option.noConfusion h
      · rw [hc] at h
        simp only [Option.some.injEq, Prod.mk.injEq] at h
        obtain ⟨hs, hb, he⟩ := h
        have hls : lazySt s₂ i₂ p₂ va₂ = s1 := by rw [lazySt, hl]
        refine ⟨he.symm, ?_, ?_⟩
        · rw [← hs, hls, cowSt, hc]
        · intro hz
          rw [← hb, decide_eq_true hz, Bool.true_or, Bool.true_or]

/-- Witness for usertrap_fault_routing_spec: at virtual address 0 with
heap bound 0 over the already-mapped table, both fault kinds resolve as
no-ops, the load fault records only the lazy resolver, the store fault
records lazy then cow, and the out-of-bound address sets the kill
mark. -/
theorem usertrap_fault_routing_spec_witness :
    ([Ev.lazy] : List Ev) = [Ev.lazy] ∧
    sPteV = lazySt sPteV 0 0 0 ∧
    (true : Bool) = true ∧
    ([Ev.lazy, Ev.cow] : List Ev) = [Ev.lazy, Ev.cow] ∧
    sPteV = cowSt (lazySt sPteV 0 0 0) 0 0 0 :=
  have h := usertrap_fault_routing_spec sPteV sPteV 0 0 0 0 0 0 0 0
    sPteV sPteV true true [Ev.lazy] [Ev.lazy, Ev.cow]
  have h1 := h.1 rfl
  have h2 := h.2 rfl
  ⟨h1.1, h1.2.1, h1.2.2.1 (by decide), h2.1, h2.2.1⟩

theorem move_freelist_cases (s : KState) (d sr : Fin 8) (rr : Int) (t : KState)
    (hne : d ≠ sr)
    (h : move_freelist s d sr = some (rr, t)) :
    (rr = -1 ∧ t = s) ∨
    (rr = 0 ∧ ∃ k : Int, 0 < k ∧ k.toNat < (s.cores sr).freelist.length ∧
      t.kend = s.kend ∧ t.refcnt = s.refcnt ∧ t.initializing = s.initializing ∧
      t.mem = s.mem ∧ t.pts = s.pts ∧
      t.cores d = ⟨(s.cores sr).freelist.take k.toNat, (s.cores d).size + k⟩ ∧
      t.cores sr = ⟨(s.cores sr).freelist.drop k.toNat, (s.cores sr).size - k⟩ ∧
      (∀ c, c ≠ d → c ≠ sr → t.cores c = s.cores c)) := by
  have hne' : ¬ d = sr := hne
  have hne'' : ¬ sr = d := fun hh => hne hh.symm
  unfold move_freelist at h
  dsimp only at h
  by_cases h0 : min (s.cores sr).size NPGTOMOVE ≤ 0
  · rw [if_pos h0] at h
    have h' := Option.some.inj h
    exact Or.inl ⟨(congrArg Prod.fst h').symm, (congrArg Prod.snd h').symm⟩
  · rw [if_neg h0] at h
    by_cases h1 : (s.cores sr).freelist.length < (min (s.cores sr).size NPGTOMOVE).toNat
    · rw [if_pos h1] at h
      exact Option.noConfusion h
    · rw [if_neg h1] at h
      by_cases h2 : (s.cores sr).freelist.length = (min (s.cores sr).size NPGTOMOVE).toNat
      · rw [if_pos h2] at h
        have h' := Option.some.inj h
        exact Or.inl ⟨(congrArg Prod.fst h').symm, (congrArg Prod.snd h').symm⟩
      · rw [if_neg h2] at h
        have h' := Option.some.inj h
        obtain ⟨hrr, hts⟩ := Prod.mk.inj h'
        subst hrr
        subst hts
        refine Or.inr ⟨rfl, min (s.cores sr).size NPGTOMOVE, not_le.mp h0, by omega,
          rfl, rfl, rfl, rfl, rfl, ?_, ?_, ?_⟩
        · dsimp only
          simp only [hne', hne'', if_true, if_false, ite_true, ite_false,
            eq_self_iff_true]
        · dsimp only
          simp only [hne', hne'', if_true, if_false, ite_true, ite_false,
            eq_self_iff_true]
        · intro c hcd hcs
          have hcd' : ¬ c = d := hcd
          have hcs' : ¬ c = sr := hcs
          dsimp only
          simp only [hcd', hcs', if_false, ite_false]

theorem move_freelist_kinv (s : KState) (d sr : Fin 8) (rr : Int) (t : KState)
    (hne : d ≠ sr) (hd : (s.cores d).freelist = [])
    (hI : KInv s) (h : move_freelist s d sr = some (rr, t)) :
    KInv t ∧ t.kend = s.kend ∧ t.refcnt = s.refcnt ∧
    t.initializing = s.initializing ∧
    (∀ c pa, pa ∈ (t.cores c).freelist → ∃ c', pa ∈ (s.cores c').freelist) := by
  rcases move_freelist_cases s d sr rr t hne h with ⟨hr, ht⟩ |
    ⟨hr, k, hkpos, hklt, hk, hrf, hin, hmem, hpts, hcd, hcsr, hoth⟩
  · subst ht
    exact ⟨hI, rfl, rfl, rfl, fun c pa hp => ⟨c, hp⟩⟩
  · obtain ⟨hinit, ⟨hsz, hrange, hnd, hdisj⟩, hfree⟩ := hI
    have hdempty0 : (s.cores d).size = 0 := by
      have hx := hsz d
      rw [hd] at hx
      simpa using hx
    have hsub : ∀ c pa, pa ∈ (t.cores c).freelist →
        pa ∈ (s.cores c).freelist ∨ pa ∈ (s.cores sr).freelist := by
      intro c pa hp
      by_cases hcd' : c = d
      · rw [hcd', hcd] at hp
        exact Or.inr (List.take_subset _ _ hp)
      · by_cases hcs : c = sr
        · rw [hcs, hcsr] at hp
          rw [hcs]
          exact Or.inr (List.drop_subset _ _ hp)
        · rw [hoth c hcd' hcs] at hp
          exact Or.inl hp
    have hdt : List.Disjoint ((s.cores sr).freelist.take k.toNat)
        ((s.cores sr).freelist.drop k.toNat) :=
      List.disjoint_take_drop (hnd sr) le_rfl
    refine ⟨⟨?_, ⟨?_, ?_, ?_, ?_⟩, ?_⟩, hk, hrf, hin, ?_⟩
    · rw [hin]
      exact hinit
    · intro c
      by_cases hcd' : c = d
      · rw [hcd', hcd]
        dsimp only
        rw [List.length_take, Nat.min_eq_left (le_of_lt hklt), hdempty0]
        omega
      · by_cases hcs : c = sr
        · rw [hcs, hcsr]
          dsimp only
          rw [List.length_drop]
          have hx := hsz sr
          omega
        · rw [hoth c hcd' hcs]
          exact hsz c
    · intro c pa hp
      rw [hk]
      rcases hsub c pa hp with hq | hq
      · exact hrange c pa hq
      · exact hrange sr pa hq
    · intro c
      by_cases hcd' : c = d
      · rw [hcd', hcd]
        exact (List.take_sublist _ _).nodup (hnd sr)
      · by_cases hcs : c = sr
        · rw [hcs, hcsr]
          exact (List.drop_sublist _ _).nodup (hnd sr)
        · rw [hoth c hcd' hcs]
          exact hnd c
    · intro c c' hcc pa hp hp'
      by_cases hcd' : c = d
      · rw [hcd', hcd] at hp
        have hpl : pa ∈ (s.cores sr).freelist := List.take_subset _ _ hp
        by_cases hcs' : c' = sr
        · rw [hcs', hcsr] at hp'
          exact hdt hp hp'
        · have hcd2 : c' ≠ d := fun hh => hcc (by rw [hcd', hh])
          rw [hoth c' hcd2 hcs'] at hp'
          exact hdisj sr c' (fun hh => hcs' hh.symm) pa hpl hp'
      · by_cases hcs : c = sr
        · rw [hcs, hcsr] at hp
          have hpl : pa ∈ (s.cores sr).freelist := List.drop_subset _ _ hp
          by_cases hcd2 : c' = d
          · rw [hcd2, hcd] at hp'
            exact hdt hp' hp
          · have hcs2 : c' ≠ sr := fun hh => hcc (by rw [hcs, hh])
            rw [hoth c' hcd2 hcs2] at hp'
            exact hdisj sr c' (fun hh => hcs2 hh.symm) pa hpl hp'
        · rw [hoth c hcd' hcs] at hp
          by_cases hcd2 : c' = d
          · rw [hcd2, hcd] at hp'
            have hpl : pa ∈ (s.cores sr).freelist := List.take_subset _ _ hp'
            exact hdisj c sr hcs pa hp hpl
          · by_cases hcs2 : c' = sr
            · rw [hcs2, hcsr] at hp'
              have hpl : pa ∈ (s.cores sr).freelist := List.drop_subset _ _ hp'
              exact hdisj c sr hcs pa hp hpl
            · rw [hoth c' hcd2 hcs2] at hp'
              exact hdisj c c' hcc pa hp hp'
    · intro c pa hp
      rw [hk, hrf]
      rcases hsub c pa hp with hq | hq
      · exact hfree c pa hq
      · exact hfree sr pa hq
    · intro c pa hp
      rcases hsub c pa hp with hq | hq
      · exact ⟨c, hq⟩
      · exact ⟨sr, hq⟩

theorem stealLoop_kinv (id : Fin 8) : ∀ (l : List (Fin 8)) (s s1 : KState),
    KInv s → (s.cores id).freelist = [] →
    stealLoop s id l = some s1 →
    KInv s1 ∧ s1.kend = s.kend ∧ s1.refcnt = s.refcnt ∧
    s1.initializing = s.initializing ∧
    (∀ c pa, pa ∈ (s1.cores c).freelist → ∃ c', pa ∈ (s.cores c').freelist)
  | [], s, s1, hI, hid, h => by
    have hs : s = s1 := Option.some.inj h
    subst hs
    exact ⟨hI, rfl, rfl, rfl, fun c pa hp => ⟨c, hp⟩⟩
  | i :: rest, s, s1, hI, hid, h => by
    unfold stealLoop at h
    by_cases hc : i ≠ id ∧ (s.cores i).freelist ≠ []
    · rw [if_pos hc] at h
      rcases hm : move_freelist s id i with _ | ⟨r, s'⟩
      · rw [hm] at h
        exact Option.noConfusion h
      · rw [hm] at h
        dsimp only at h
        by_cases hr : r = 0
        · rw [if_pos hr] at h
          have hs : s' = s1 := Option.some.inj h
          subst hs
          exact move_freelist_kinv s id i r s' (fun hh => hc.1 hh.symm) hid hI hm
        · rw [if_neg hr] at h
          rcases move_freelist_cases s id i r s' (fun hh => hc.1 hh.symm) hm with
            ⟨_, hss⟩ | ⟨hr0, _⟩
          · subst hss
            exact stealLoop_kinv id rest s' s1 hI hid h
          · exact absurd hr0 hr
    · rw [if_neg hc] at h
      exact stealLoop_kinv id rest s s1 hI hid h

theorem inc_page_ref_kinv (u : KState) (pa : Nat)
    (h0 : pa % PGSIZE = 0) (h1 : u.kend ≤ pa) (h2 : pa < PHYSTOP)
    (hnot : ∀ c, pa ∉ (u.cores c).freelist)
    (hI : KInv u) : KInv (inc_page_ref u pa).2 := by
  rw [inc_page_ref_ok u pa h1 h2]
  dsimp only
  refine ⟨hI.1, hI.2.1, ?_⟩
  intro c p hp
  dsimp only
  have hpr := hI.2.1.2.1 c p hp
  have hne : PA2INDEX u.kend p ≠ PA2INDEX u.kend pa := by
    intro hc
    exact hnot c (PA2INDEX_inj u.kend p pa hpr.1 hpr.2.1 hpr.2.2 h0 h1 h2 hc ▸ hp)
  rw [if_neg hne]
  exact hI.2.2 c p hp

theorem pop_core_kinv (s1 : KState) (id : Fin 8) (r : Nat) (rest : List Nat)
    (hfl : (s1.cores id).freelist = r :: rest) (hI : KInv s1) :
    KInv { s1 with cores := fun j =>
        if j = id then ⟨rest, (s1.cores id).size - 1⟩ else s1.cores j } ∧
    (∀ c, r ∉ (({ s1 with cores := fun j =>
        if j = id then ⟨rest, (s1.cores id).size - 1⟩ else s1.cores j }).cores c).freelist) := by
  obtain ⟨hinit, ⟨hsz, hrange, hnd, hdisj⟩, hfree⟩ := hI
  have hndid := hnd id
  rw [hfl] at hndid
  have hrnotrest : r ∉ rest := (List.nodup_cons.mp hndid).1
  have hsub : ∀ c p, p ∈ ((fun j =>
      if j = id then (⟨rest, (s1.cores id).size - 1⟩ : Core) else s1.cores j) c).freelist →
      p ∈ (s1.cores c).freelist := by
    intro c p hp
    dsimp only at hp
    by_cases hc : c = id
    · rw [hc] at hp ⊢
      rw [if_pos rfl] at hp
      rw [hfl]
      exact List.mem_cons_of_mem r hp
    · rw [if_neg hc] at hp
      exact hp
  refine ⟨⟨hinit, ⟨?_, ?_, ?_, ?_⟩, ?_⟩, ?_⟩
  · intro c
    dsimp only
    by_cases hc : c = id
    · rw [hc, if_pos rfl]
      have hx := hsz id
      rw [hfl] at hx
      dsimp only
      rw [List.length_cons] at hx
      omega
    · rw [if_neg hc]
      exact hsz c
  · intro c p hp
    exact hrange c p (hsub c p hp)
  · intro c
    dsimp only
    by_cases hc : c = id
    · rw [hc, if_pos rfl]
      exact (List.nodup_cons.mp hndid).2
    · rw [if_neg hc]
      exact hnd c
  · intro c c' hcc p hp hp'
    exact hdisj c c' hcc p (hsub c p hp) (hsub c' p hp')
  · intro c p hp
    exact hfree c p (hsub c p hp)
  · intro c hp
    dsimp only at hp
    by_cases hc : c = id
    · rw [hc, if_pos rfl] at hp
      exact hrnotrest hp
    · rw [if_neg hc] at hp
      have hrid : r ∈ (s1.cores id).freelist := by
        rw [hfl]
        exact List.mem_cons_self r rest
      exact hdisj id c (fun hh => hc hh.symm) r hrid hp

theorem kalloc_kinv (s : KState) (id : Fin 8) (t : KState) (ro : Option Nat)
    (hI : KInv s) (h : kalloc s id = some (t, ro)) :
    KInv t ∧ ∀ r, ro = some r →
      r % PGSIZE = 0 ∧ s.kend ≤ r ∧ r < PHYSTOP ∧ s.refcnt (PA2INDEX s.kend r) = 0 := by
  unfold kalloc at h
  rcases hsl : (if (s.cores id).size = 0 then stealLoop s id (List.finRange 8) else some s)
    with _ | s1
  · rw [hsl] at h
    exact Option.noConfusion h
  · rw [hsl] at h
    dsimp only at h
    have hfacts : KInv s1 ∧ s1.kend = s.kend ∧ s1.refcnt = s.refcnt := by
      by_cases hz : (s.cores id).size = 0
      · rw [if_pos hz] at hsl
        have hmt : (s.cores id).freelist = [] := by
          have hx := hI.2.1.1 id
          rw [hz] at hx
          exact List.length_eq_zero.mp (by exact_mod_cast hx.symm)
        have hst := stealLoop_kinv id (List.finRange 8) s s1 hI hmt hsl
        exact ⟨hst.1, hst.2.1, hst.2.2.1⟩
      · rw [if_neg hz] at hsl
        have hs : s = s1 := Option.some.inj hsl
        subst hs
        exact ⟨hI, rfl, rfl⟩
    obtain ⟨hI1, hk1, hr1⟩ := hfacts
    rcases hfl : (s1.cores id).freelist with _ | ⟨r, rest⟩
    · rw [hfl] at h
      obtain ⟨ht, hro⟩ := Prod.mk.inj (Option.some.inj h)
      subst ht
      subst hro
      refine ⟨hI1, ?_⟩
      intro r hq
      exact Option.noConfusion hq
    · rw [hfl] at h
      dsimp only at h
      obtain ⟨ht, hro⟩ := Prod.mk.inj (Option.some.inj h)
      subst ht
      subst hro
      have hrmem : r ∈ (s1.cores id).freelist := by
        rw [hfl]
        exact List.mem_cons_self r rest
      have hrprops := hI1.2.1.2.1 id r hrmem
      have hrz : s1.refcnt (PA2INDEX s1.kend r) = 0 := hI1.2.2 id r hrmem
      have hpop := pop_core_kinv s1 id r rest hfl hI1
      constructor
      · exact inc_page_ref_kinv _ r hrprops.1 hrprops.2.1 hrprops.2.2 hpop.2 hpop.1
      · intro r' hq
        have hrr : r = r' := Option.some.inj hq
        subst hrr
        exact ⟨hrprops.1, by rw [← hk1]; exact hrprops.2.1, hrprops.2.2,
          by rw [← hr1, ← hk1]; exact hrz⟩

theorem dec_unlisted_kinv (s : KState) (pa : Nat)
    (h0 : pa % PGSIZE = 0) (h1 : s.kend ≤ pa) (h2 : pa < PHYSTOP)
    (hnot : ∀ c, pa ∉ (s.cores c).freelist) (hI : KInv s) :
    KInv { s with refcnt := fun j =>
        if j = PA2INDEX s.kend pa then s.refcnt (PA2INDEX s.kend pa) - 1
        else s.refcnt j } := by
  refine ⟨hI.1, hI.2.1, ?_⟩
  intro c p hp
  dsimp only
  have hpr := hI.2.1.2.1 c p hp
  have hne : PA2INDEX s.kend p ≠ PA2INDEX s.kend pa := by
    intro hcx
    exact hnot c ((PA2INDEX_inj s.kend p pa hpr.1 hpr.2.1 hpr.2.2 h0 h1 h2 hcx) ▸ hp)
  rw [if_neg hne]
  exact hI.2.2 c p hp

theorem kfreePush_invCores (u : KState) (id : Fin 8) (pa : Nat)
    (h0 : pa % PGSIZE = 0) (h1 : u.kend ≤ pa) (h2 : pa < PHYSTOP)
    (hnot : ∀ c, pa ∉ (u.cores c).freelist)
    (hIC : InvCores u) : InvCores (kfreePush u id pa) := by
  obtain ⟨hsz, hrange, hnd, hdisj⟩ := hIC
  unfold kfreePush
  dsimp only
  refine ⟨?_, ?_, ?_, ?_⟩
  · intro c
    dsimp only
    by_cases hc : c = id
    · rw [hc, if_pos rfl]
      have hx := hsz id
      dsimp only
      rw [List.length_cons]
      omega
    · rw [if_neg hc]
      exact hsz c
  · intro c p hp
    dsimp only at hp
    by_cases hc : c = id
    · rw [hc, if_pos rfl] at hp
      rcases List.mem_cons.mp hp with hpp | hpo
      · rw [hpp]
        exact ⟨h0, h1, h2⟩
      · exact hrange id p hpo
    · rw [if_neg hc] at hp
      exact hrange c p hp
  · intro c
    dsimp only
    by_cases hc : c = id
    · rw [hc, if_pos rfl]
      exact List.nodup_cons.mpr ⟨hnot id, hnd id⟩
    · rw [if_neg hc]
      exact hnd c
  · intro c c' hcc p hp hp'
    dsimp only at hp hp'
    by_cases hc : c = id
    · have hc' : ¬ c' = id := fun hh => hcc (by rw [hc, hh])
      rw [hc, if_pos rfl] at hp
      rw [if_neg hc'] at hp'
      rcases List.mem_cons.mp hp with hpp | hpo
      · exact hnot c' (hpp ▸ hp')
      · exact hdisj id c' (fun hh => hc' hh.symm) p hpo hp'
    · rw [if_neg hc] at hp
      by_cases hc2 : c' = id
      · rw [hc2, if_pos rfl] at hp'
        rcases List.mem_cons.mp hp' with hpp | hpo
        · exact hnot c (hpp ▸ hp)
        · exact hdisj c id hc p hp hpo
      · rw [if_neg hc2] at hp'
        exact hdisj c c' hcc p hp hp'

theorem kfreePush_kinv (u : KState) (id : Fin 8) (pa : Nat)
    (h0 : pa % PGSIZE = 0) (h1 : u.kend ≤ pa) (h2 : pa < PHYSTOP)
    (hnot : ∀ c, pa ∉ (u.cores c).freelist)
    (hz : u.refcnt (PA2INDEX u.kend pa) = 0)
    (hI : KInv u) : KInv (kfreePush u id pa) := by
  refine ⟨hI.1, kfreePush_invCores u id pa h0 h1 h2 hnot hI.2.1, ?_⟩
  intro c p hp
  have hp' : p ∈ ((fun j => if j = id
      then (⟨pa :: (u.cores id).freelist, (u.cores id).size + 1⟩ : Core)
      else u.cores j) c).freelist := hp
  dsimp only at hp'
  by_cases hc : c = id
  · rw [hc, if_pos rfl] at hp'
    rcases List.mem_cons.mp hp' with hpp | hpo
    · rw [hpp]
      exact hz
    · exact hI.2.2 id p hpo
  · rw [if_neg hc] at hp'
    exact hI.2.2 c p hp'

theorem kfree_kinv (s : KState) (id : Fin 8) (pa : Nat) (s' : KState)
    (hI : KInv s) (ha : Allocated s pa) (h : kfree s id pa = some s') : KInv s' := by
  obtain ⟨h0, h1, h2, hcnt, hnot⟩ := ha
  by_cases hc : 1 < s.refcnt (PA2INDEX s.kend pa)
  · rw [kfree_shared_eq s id pa h0 h1 h2 hI.1 hc] at h
    have hs := Option.some.inj h
    subst hs
    exact dec_unlisted_kinv s pa h0 h1 h2 hnot hI
  · rw [kfree_owner_eq s id pa h0 h1 h2 hI.1 hc] at h
    have hs := Option.some.inj h
    subst hs
    have hD := dec_unlisted_kinv s pa h0 h1 h2 hnot hI
    refine kfreePush_kinv _ id pa h0 h1 h2 hnot ?_ hD
    dsimp only
    rw [if_pos rfl]
    omega

theorem env_kinv (s s' : KState) (hk : s'.kend = s.kend) (hc : s'.cores = s.cores)
    (hr : s'.refcnt = s.refcnt) (hi : s'.initializing = s.initializing)
    (hI : KInv s) : KInv s' := by
  obtain ⟨h1', ⟨ha, hb, hcn, hd2⟩, he⟩ := hI
  refine ⟨by rw [hi]; exact h1', ⟨?_, ?_, ?_, ?_⟩, ?_⟩
  · intro c
    rw [hc]
    exact ha c
  · intro c p hp
    rw [hc] at hp
    rw [hk]
    exact hb c p hp
  · intro c
    rw [hc]
    exact hcn c
  · intro c c' hcc p hp
    rw [hc] at hp ⊢
    exact hd2 c c' hcc p hp
  · intro c p hp
    rw [hc] at hp
    rw [hr, hk]
    exact he c p hp

theorem freeSeq_kinv (id : Fin 8) : ∀ (l : List Nat) (s s' : KState),
    s.initializing = true →
    (∀ p ∈ l, p % PGSIZE = 0 ∧ s.kend ≤ p ∧ p < PHYSTOP) →
    l.Nodup →
    (∀ p ∈ l, ∀ c, p ∉ (s.cores c).freelist) →
    InvCores s →
    freeSeq id s l = some s' →
    s'.kend = s.kend ∧ s'.initializing = true ∧ InvCores s'
  | [], s, s', hinit, _, _, _, hIC, h => by
    have hs : s = s' := Option.some.inj h
    subst hs
    exact ⟨rfl, hinit, hIC⟩
  | p :: ps, s, s', hinit, hprops, hnd, hdisj, hIC, h => by
    unfold freeSeq at h
    have hp := hprops p (List.mem_cons_self p ps)
    have hkf : kfree s id p = some (kfreePush s id p) := by
      unfold kfree
      rw [if_neg (kfree_checks_pass s p hp.1 hp.2.1 hp.2.2), if_pos hinit]
    rw [hkf] at h
    dsimp only at h
    have hpnotin : p ∉ ps := (List.nodup_cons.mp hnd).1
    have hprops' : ∀ q ∈ ps, q % PGSIZE = 0 ∧ (kfreePush s id p).kend ≤ q ∧ q < PHYSTOP := by
      intro q hq
      exact hprops q (List.mem_cons_of_mem p hq)
    have hdisj' : ∀ q ∈ ps, ∀ c, q ∉ ((kfreePush s id p).cores c).freelist := by
      intro q hq c hqin
      have hqin' : q ∈ ((fun j => if j = id
          then (⟨p :: (s.cores id).freelist, (s.cores id).size + 1⟩ : Core)
          else s.cores j) c).freelist := hqin
      dsimp only at hqin'
      by_cases hc : c = id
      · rw [hc, if_pos rfl] at hqin'
        rcases List.mem_cons.mp hqin' with hqp | hqo
        · exact hpnotin (hqp ▸ hq)
        · exact hdisj q (List.mem_cons_of_mem p hq) id hqo
      · rw [if_neg hc] at hqin'
        exact hdisj q (List.mem_cons_of_mem p hq) c hqin'
    have hIC' : InvCores (kfreePush s id p) :=
      kfreePush_invCores s id p hp.1 hp.2.1 hp.2.2
        (fun c => hdisj p (List.mem_cons_self p ps) c) hIC
    have hrec := freeSeq_kinv id ps (kfreePush s id p) s' hinit hprops'
      (List.nodup_cons.mp hnd).2 hdisj' hIC' h
    exact ⟨hrec.1, hrec.2.1, hrec.2.2⟩

theorem bootPages_props (kend : Nat) :
    ∀ p ∈ bootPages kend, p % PGSIZE = 0 ∧ kend ≤ p ∧ p < PHYSTOP := by
  intro p hp
  unfold bootPages at hp
  simp only [List.mem_map, List.mem_range] at hp
  obtain ⟨i, hi, rfl⟩ := hp
  have hup : kend ≤ PGROUNDUP kend := PGROUNDUP_le_self kend
  simp only [PGROUNDUP, PGSIZE, PHYSTOP] at *
  refine ⟨by omega, by omega, by omega⟩

theorem bootPages_nodup (kend : Nat) : (bootPages kend).Nodup := by
  unfold bootPages
  refine List.Nodup.map ?_ (List.nodup_range _)
  intro a b hab
  simp only [PGSIZE] at hab
  omega

theorem kinit_kinv (kend : Nat) (id0 : Fin 8) (s : KState)
    (h : kinit kend id0 = some s) : KInv s := by
  unfold kinit at h
  rcases hfs : freeSeq id0 (initState0 kend) (bootPages kend) with _ | s2
  · rw [hfs] at h
    exact Option.noConfusion h
  · rw [hfs] at h
    have hs := Option.some.inj h
    subst hs
    have hIC0 : InvCores (initState0 kend) :=
      ⟨fun _ => rfl, fun _ p hp => absurd hp (List.not_mem_nil p),
       fun _ => List.nodup_nil, fun _ _ _ p hp => absurd hp (List.not_mem_nil p)⟩
    have hfree := freeSeq_kinv id0 (bootPages kend) (initState0 kend) s2 rfl
      (bootPages_props kend) (bootPages_nodup kend)
      (fun p _ c hpc => absurd hpc (List.not_mem_nil p)) hIC0 hfs
    exact ⟨rfl, hfree.2.2, fun c p _ => rfl⟩

theorem reachable_kinv (s : KState) (h : Reachable s) : KInv s := by
  induction h with
  | boot kend id0 s h => exact kinit_kinv kend id0 s h
  | alloc s s' id r _ hs ih => exact (kalloc_kinv s id s' r ih hs).1
  | free s s' id pa _ ha hs ih => exact kfree_kinv s id pa s' ih ha hs
  | env s s' _ hk hc hr hi ih => exact env_kinv s s' hk hc hr hi ih

/-- C2: freshly allocated pages.  In every state reachable after boot,
whenever kalloc returns a page rather than failing, the page's reference
count in the resulting state is exactly 1 (as get_page_ref reports) and
the page's contents are the junk sentinel written by the allocator. -/
theorem kalloc_fresh_page_spec (s : KState) (id : Fin 8) (r : Nat)
    (hre : Reachable s) (h : kallocRes s id = some r) :
    (get_page_ref (kallocSt s id) r).1 = 1 ∧
    (kallocSt s id).mem r = PageData.fill 5 := by
  rcases hk : kalloc s id with _ | ⟨t, ro⟩
  · rw [kallocRes, hk] at h
    exact Option.noConfusion h
  · rw [kallocRes, hk] at h
    subst h
    have hI := reachable_kinv s hre
    have hp := (kalloc_kinv s id t (some r) hI hk).2 r rfl
    have heff := kalloc_effect s id t r hk
    have hst : kallocSt s id = t := by rw [kallocSt, hk]
    rw [hst]
    constructor
    · rw [get_page_ref_ok t r (by rw [heff.1]; exact hp.2.1) hp.2.2.1]
      dsimp only
      rw [heff.1]
      rw [heff.2.2.2.2.2 (valid_range_not s r hp.2.1 hp.2.2.1)]
      dsimp only
      rw [if_pos rfl, hp.2.2.2]
      decide
    · rw [heff.2.2.2.2.1]
      dsimp only
      rw [if_pos rfl]

/-- Witness for kalloc_fresh_page_spec: the toy post-kinit machine is
reachable through its boot step, kalloc on core 0 returns the page
0x87FFF000, and afterwards that page's count reads 1 and its contents
are the sentinel fill. -/
theorem kalloc_fresh_page_spec_witness :
    (get_page_ref (kallocSt sBoot 0) 0x87FFF000).1 = 1 ∧
    (kallocSt sBoot 0).mem 0x87FFF000 = PageData.fill 5 :=
  kalloc_fresh_page_spec sBoot 0 0x87FFF000
    (Reachable.boot 0x87FFD000 0 sBoot sBoot_eq) (by decide)
